import Mathlib

/-!
Shallow embedding of the EDINET extraction core of `src/jap_syu/utils/edinet.py`
(candidate resolution, unit normalization, founding-year extraction,
submission-year extraction, employee-count selection, document location,
report assembly), together with theorems settling the specification claims.

Python strings are modelled as Lean `String`; Python `None`-able values as
`Option`; Python floats as `ℚ` (the claims under scrutiny only involve exact
decimal arithmetic); Python dict-based records as structures; regex searches
that feed a loop are abstracted as explicit match-list parameters (oracles),
with the loop structure itself translated faithfully.
-/

namespace Edinet

/-- Python substring test `needle in haystack`, prefix step:
does `haystack` start with `needle`? -/
def listStartsWith : List Char → List Char → Bool
  | [], _ => true
  | _ :: _, [] => false
  | n :: ns, h :: hs => n = h && listStartsWith ns hs

/-- Python substring test `needle in haystack` over char lists. -/
def listContainsSub (needle : List Char) : List Char → Bool
  | [] => needle.isEmpty
  | h :: hs => listStartsWith needle (h :: hs) || listContainsSub needle hs

/-- Python `needle in haystack` for strings. -/
def strContains (needle haystack : String) : Bool :=
  listContainsSub needle.toList haystack.toList

/-- One raw extracted candidate, as built by `_extract_value_from_ixbrl_concept`
(edinet.py:1176-1185): the dict keys used downstream by
`_select_best_value_by_context` and `_apply_ixbrl_attributes`.
`value` holds `str(result['value'])`, the literal text the normalizer re-parses. -/
structure ExtractedValue where
  value : String
  contextRef : Option String
  unitRef : Option String
  scale : Option String
  decimals : Option String
  deriving Repr, DecidableEq

/-- `result.get('contextRef') or ''` (edinet.py:924) and
`x.get('contextRef', '')` (edinet.py:959): the context string with `''`
standing for a missing one. -/
def ctxOf (r : ExtractedValue) : String :=
  r.contextRef.getD ""

/-- Segment-membership test of the bucketing pass (edinet.py:927):
`any(segment in context_ref for segment in ['ReportableSegment', 'Member'])`. -/
def isSegmentCtx (ctx : String) : Bool :=
  strContains "ReportableSegment" ctx || strContains "Member" ctx

/-- `'NonConsolidated' in context_ref` (edinet.py:928). -/
def isNonConsolCtx (ctx : String) : Bool :=
  strContains "NonConsolidated" ctx

/-- The `overall_results` bucket (edinet.py:919,932-934): candidates whose
context has no segment/member qualifier. -/
def overallBucket (results : List ExtractedValue) : List ExtractedValue :=
  results.filter (fun r => !isSegmentCtx (ctxOf r))

/-- The `segment_results` bucket (edinet.py:920,930-931). -/
def segmentBucket (results : List ExtractedValue) : List ExtractedValue :=
  results.filter (fun r => isSegmentCtx (ctxOf r) && !isNonConsolCtx (ctxOf r))

/-- The `non_consol_results` bucket (edinet.py:921,928-929). -/
def nonConsolBucket (results : List ExtractedValue) : List ExtractedValue :=
  results.filter (fun r => isSegmentCtx (ctxOf r) && isNonConsolCtx (ctxOf r))

/-- Bucket preference (edinet.py:936-940): overall, else segment, else
non-consolidated, else the full candidate list. -/
def chooseBucket (results : List ExtractedValue) : List ExtractedValue :=
  let overall := overallBucket results
  let segment := segmentBucket results
  let nonConsol := nonConsolBucket results
  let candidates :=
    if overall ≠ [] then overall
    else if segment ≠ [] then segment
    else nonConsol
  if candidates ≠ [] then candidates else results

/-- `get_context_priority` (edinet.py:943-956): recency rank of a context
reference, smaller = preferred. -/
def getContextPriority (ctx : String) : ℕ :=
  if strContains "CurrentYear" ctx then 0
  else if strContains "Prior1Year" ctx then 1
  else if strContains "Prior2Year" ctx then 2
  else if strContains "Prior3Year" ctx then 3
  else if strContains "Prior4Year" ctx then 4
  else 999

/-- Python `min(candidates, key=f)`: first element attaining the minimal key
(`min` replaces the running best only on a strictly smaller key). -/
def pyMinBy {α : Type} (f : α → ℕ) : List α → Option α
  | [] => none
  | x :: xs => some (xs.foldl (fun b a => if f a < f b then a else b) x)

/-- `_select_best_value_by_context` (edinet.py:901-962): bucket the candidates
by context, choose the preferred non-empty bucket, return the first candidate
of minimal context priority within it. -/
def selectBestValueByContext (results : List ExtractedValue) : Option ExtractedValue :=
  match results with
  | [] => none
  | [r] => some r
  | _ => pyMinBy (fun r => getContextPriority (ctxOf r)) (chooseBucket results)

example : strContains "Member" "CurrentYearDuration_ReportableSegmentMember" = true := by decide

example :
    selectBestValueByContext
      [⟨"1", some "CurrentYearDuration_ReportableSegmentsMember", none, none, none⟩,
       ⟨"2", some "CurrentYearDuration", none, none, none⟩] =
    some ⟨"2", some "CurrentYearDuration", none, none, none⟩ := by decide

section PyMinLemmas

variable {α : Type} (f : α → ℕ)

/-- The running best of Python `min` stays among the initial best and the
remaining elements. -/
lemma pyMinFold_mem (xs : List α) (b : α) :
    xs.foldl (fun b a => if f a < f b then a else b) b ∈ b :: xs := by
  induction xs generalizing b with
  | nil => simp
  | cons x xs ih =>
    simp only [List.foldl_cons]
    by_cases hx : f x < f b
    · simp only [hx, if_pos]
      rcases List.mem_cons.mp (ih x) with h | h
      · simp [h]
      · simp [List.mem_cons_of_mem, h]
    · simp only [hx, if_neg, not_false_iff]
      rcases List.mem_cons.mp (ih b) with h | h
      · simp [h]
      · simp [List.mem_cons_of_mem, h]

/-- The running best of Python `min` attains the minimal key. -/
lemma pyMinFold_le (xs : List α) (b : α) :
    f (xs.foldl (fun b a => if f a < f b then a else b) b) ≤ f b ∧
      ∀ a ∈ xs, f (xs.foldl (fun b a => if f a < f b then a else b) b) ≤ f a := by
  induction xs generalizing b with
  | nil => simp
  | cons x xs ih =>
    simp only [List.foldl_cons]
    by_cases hx : f x < f b
    · simp only [hx, if_pos]
      rcases ih x with ⟨h1, h2⟩
      exact ⟨le_trans h1 (le_of_lt hx), by
        intro a ha
        rcases List.mem_cons.mp ha with rfl | ha
        · exact h1
        · exact h2 a ha⟩
    · simp only [hx, if_neg, not_false_iff]
      rcases ih b with ⟨h1, h2⟩
      exact ⟨h1, by
        intro a ha
        rcases List.mem_cons.mp ha with rfl | ha
        · exact le_trans h1 (le_of_not_lt hx)
        · exact h2 a ha⟩

/-- If the current best is at least as good as everything left, Python `min`
keeps it (replacement needs a strictly smaller key). -/
lemma pyMinFold_keep (xs : List α) (b : α) (h : ∀ a ∈ xs, f b ≤ f a) :
    xs.foldl (fun b a => if f a < f b then a else b) b = b := by
  induction xs with
  | nil => simp
  | cons x xs ih =>
    have hx : ¬ f x < f b := not_lt.mpr (h x (List.mem_cons_self x xs))
    simp only [List.foldl_cons, hx, if_neg, not_false_iff]
    exact ih (fun a ha => h a (List.mem_cons_of_mem x ha))

/-- If `x` beats the current best strictly and everything after it weakly,
Python `min` ends on `x`. -/
lemma pyMinFold_first (x : α) (l₂ : List α) (hx₂ : ∀ y ∈ l₂, f x ≤ f y) :
    ∀ (l₁ : List α) (b : α), f x < f b → (∀ y ∈ l₁, f x < f y) →
      (l₁ ++ x :: l₂).foldl (fun b a => if f a < f b then a else b) b = x := by
  intro l₁
  induction l₁ with
  | nil =>
    intro b hb _
    simp only [List.nil_append, List.foldl_cons, hb, if_pos]
    exact pyMinFold_keep f l₂ x hx₂
  | cons z l₁ ih =>
    intro b hb hl₁
    simp only [List.cons_append, List.foldl_cons]
    by_cases hz : f z < f b
    · simp only [hz, if_pos]
      exact ih z (hl₁ z (List.mem_cons_self z l₁))
        (fun y hy => hl₁ y (List.mem_cons_of_mem z hy))
    · simp only [hz, if_neg, not_false_iff]
      exact ih b hb (fun y hy => hl₁ y (List.mem_cons_of_mem z hy))

/-- `pyMinBy` returns an element of its input list. -/
lemma pyMinBy_mem {l : List α} {x : α} (h : pyMinBy f l = some x) : x ∈ l := by
  cases l with
  | nil => simp [pyMinBy] at h
  | cons a as =>
    simp only [pyMinBy, Option.some.injEq] at h
    subst h
    exact pyMinFold_mem f as a

/-- `pyMinBy` returns the first element attaining the minimal key. -/
lemma pyMinBy_first {x : α} {l₁ l₂ : List α}
    (h₁ : ∀ y ∈ l₁, f x < f y) (h₂ : ∀ y ∈ l₂, f x ≤ f y) :
    pyMinBy f (l₁ ++ x :: l₂) = some x := by
  cases l₁ with
  | nil =>
    simp only [List.nil_append, pyMinBy, Option.some.injEq]
    exact pyMinFold_keep f l₂ x h₂
  | cons z l₁ =>
    simp only [List.cons_append, pyMinBy, Option.some.injEq]
    exact pyMinFold_first f x l₂ h₂ l₁ z (h₁ z (List.mem_cons_self z l₁))
      (fun y hy => h₁ y (List.mem_cons_of_mem z hy))

end PyMinLemmas

/-- How `chooseBucket` resolves the bucket preference. -/
lemma chooseBucket_cases (results : List ExtractedValue) :
    (overallBucket results ≠ [] → chooseBucket results = overallBucket results) ∧
    (overallBucket results = [] → segmentBucket results ≠ [] →
      chooseBucket results = segmentBucket results) ∧
    (overallBucket results = [] → segmentBucket results = [] →
      nonConsolBucket results ≠ [] → chooseBucket results = nonConsolBucket results) ∧
    (overallBucket results = [] → segmentBucket results = [] →
      nonConsolBucket results = [] → chooseBucket results = results) := by
  refine ⟨?_, ?_, ?_, ?_⟩ <;> intros <;> simp_all [chooseBucket]

/-- Every candidate lies in exactly the bucket its context qualifies it for;
in particular the selected candidate of a non-degenerate resolver call is a
member of the chosen bucket. -/
lemma selectBest_mem_chooseBucket {results : List ExtractedValue} {r : ExtractedValue}
    (h : selectBestValueByContext results = some r) : r ∈ chooseBucket results := by
  match results with
  | [] => simp [selectBestValueByContext] at h
  | [a] =>
    obtain rfl : a = r := by
      simpa [selectBestValueByContext] using h
    by_cases hs : isSegmentCtx (ctxOf a) = true <;>
      by_cases hn : isNonConsolCtx (ctxOf a) = true <;>
        simp [chooseBucket, overallBucket, segmentBucket, nonConsolBucket,
          List.filter_cons, hs, hn, Bool.not_eq_true] at *
  | a :: b :: rest =>
    have hm := pyMinBy_mem (fun r => getContextPriority (ctxOf r))
      (l := chooseBucket (a :: b :: rest)) (x := r) ?_
    · exact hm
    · exact h

/-- C1: whenever the candidate list has a consolidated/overall candidate
(no segment or entity-member qualifier in its context), the resolver's
selection comes from the overall bucket; with that bucket empty it comes
from the segment bucket, then from the non-consolidated bucket, and with
all three buckets empty the full candidate list is used. -/
theorem claim_C1 (results : List ExtractedValue) (r : ExtractedValue)
    (hr : selectBestValueByContext results = some r) :
    (overallBucket results ≠ [] → r ∈ overallBucket results) ∧
    (overallBucket results = [] → segmentBucket results ≠ [] →
      r ∈ segmentBucket results) ∧
    (overallBucket results = [] → segmentBucket results = [] →
      nonConsolBucket results ≠ [] → r ∈ nonConsolBucket results) ∧
    (overallBucket results = [] → segmentBucket results = [] →
      nonConsolBucket results = [] → r ∈ results) := by
  have hm := selectBest_mem_chooseBucket hr
  obtain ⟨h1, h2, h3, h4⟩ := chooseBucket_cases results
  refine ⟨fun ho => ?_, fun ho hs => ?_, fun ho hs hn => ?_, fun ho hs hn => ?_⟩
  · rw [h1 ho] at hm; exact hm
  · rw [h2 ho hs] at hm; exact hm
  · rw [h3 ho hs hn] at hm; exact hm
  · rw [h4 ho hs hn] at hm; exact hm

/-- A segment-qualified candidate (real context string seen in EDINET filings). -/
def sampleSegCand : ExtractedValue :=
  ⟨"1205", some "CurrentYearDuration_ReportableSegmentsMember", none, none, none⟩

/-- A consolidated/overall candidate. -/
def sampleOverallCand : ExtractedValue :=
  ⟨"3409", some "CurrentYearDuration", none, none, none⟩

/-- A prior-year consolidated candidate. -/
def samplePriorCand : ExtractedValue :=
  ⟨"3000", some "Prior1YearDuration", none, none, none⟩

/-- Witness for C1 at a concrete two-candidate input. -/
theorem claim_C1_witness :
    (overallBucket [sampleSegCand, sampleOverallCand] ≠ [] →
      sampleOverallCand ∈ overallBucket [sampleSegCand, sampleOverallCand]) ∧
    (overallBucket [sampleSegCand, sampleOverallCand] = [] →
      segmentBucket [sampleSegCand, sampleOverallCand] ≠ [] →
      sampleOverallCand ∈ segmentBucket [sampleSegCand, sampleOverallCand]) ∧
    (overallBucket [sampleSegCand, sampleOverallCand] = [] →
      segmentBucket [sampleSegCand, sampleOverallCand] = [] →
      nonConsolBucket [sampleSegCand, sampleOverallCand] ≠ [] →
      sampleOverallCand ∈ nonConsolBucket [sampleSegCand, sampleOverallCand]) ∧
    (overallBucket [sampleSegCand, sampleOverallCand] = [] →
      segmentBucket [sampleSegCand, sampleOverallCand] = [] →
      nonConsolBucket [sampleSegCand, sampleOverallCand] = [] →
      sampleOverallCand ∈ [sampleSegCand, sampleOverallCand]) :=
  claim_C1 [sampleSegCand, sampleOverallCand] sampleOverallCand (by decide)

/-- C2: context-recency ranking and deterministic tie-breaking of the
resolver. Contexts containing "CurrentYear" outrank any context that lacks
"CurrentYear" but carries a prior-year keyword; "Prior1Year" through
"Prior4Year" contexts (classified by the first keyword the priority chain
finds) rank in strictly increasing priority number; contexts with none of
the keywords rank behind every keyword-bearing context; and within the
chosen bucket the resolver returns the first candidate, in extraction
order, attaining the minimal priority. -/
theorem claim_C2 :
    (∀ c p, strContains "CurrentYear" c = true → strContains "CurrentYear" p = false →
      (strContains "Prior1Year" p = true ∨ strContains "Prior2Year" p = true ∨
        strContains "Prior3Year" p = true ∨ strContains "Prior4Year" p = true) →
      getContextPriority c < getContextPriority p) ∧
    (∀ p q, strContains "CurrentYear" p = false → strContains "Prior1Year" p = true →
      strContains "CurrentYear" q = false → strContains "Prior1Year" q = false →
      strContains "Prior2Year" q = true →
      getContextPriority p < getContextPriority q) ∧
    (∀ p q, strContains "CurrentYear" p = false → strContains "Prior1Year" p = false →
      strContains "Prior2Year" p = true →
      strContains "CurrentYear" q = false → strContains "Prior1Year" q = false →
      strContains "Prior2Year" q = false → strContains "Prior3Year" q = true →
      getContextPriority p < getContextPriority q) ∧
    (∀ p q, strContains "CurrentYear" p = false → strContains "Prior1Year" p = false →
      strContains "Prior2Year" p = false → strContains "Prior3Year" p = true →
      strContains "CurrentYear" q = false → strContains "Prior1Year" q = false →
      strContains "Prior2Year" q = false → strContains "Prior3Year" q = false →
      strContains "Prior4Year" q = true →
      getContextPriority p < getContextPriority q) ∧
    (∀ p u,
      (strContains "CurrentYear" p = true ∨ strContains "Prior1Year" p = true ∨
        strContains "Prior2Year" p = true ∨ strContains "Prior3Year" p = true ∨
        strContains "Prior4Year" p = true) →
      strContains "CurrentYear" u = false → strContains "Prior1Year" u = false →
      strContains "Prior2Year" u = false → strContains "Prior3Year" u = false →
      strContains "Prior4Year" u = false →
      getContextPriority p < getContextPriority u) ∧
    (∀ (a b : ExtractedValue) (rest : List ExtractedValue)
        (l₁ l₂ : List ExtractedValue) (r : ExtractedValue),
      chooseBucket (a :: b :: rest) = l₁ ++ r :: l₂ →
      (∀ y ∈ l₁, getContextPriority (ctxOf r) < getContextPriority (ctxOf y)) →
      (∀ y ∈ l₂, getContextPriority (ctxOf r) ≤ getContextPriority (ctxOf y)) →
      selectBestValueByContext (a :: b :: rest) = some r) := by
  refine ⟨?_, ?_, ?_, ?_, ?_, ?_⟩
  · intro c p hc hp hprior
    have h0 : getContextPriority c = 0 := by simp [getContextPriority, hc]
    rw [h0]
    have : 0 < getContextPriority p := by
      simp only [getContextPriority, hp, Bool.false_eq_true, if_false]
      split_ifs <;> norm_num
    exact this
  · intro p q hp1 hp2 hq1 hq2 hq3
    simp [getContextPriority, hp1, hp2, hq1, hq2, hq3]
  · intro p q hp1 hp2 hp3 hq1 hq2 hq3 hq4
    simp [getContextPriority, hp1, hp2, hp3, hq1, hq2, hq3, hq4]
  · intro p q hp1 hp2 hp3 hp4 hq1 hq2 hq3 hq4 hq5
    simp [getContextPriority, hp1, hp2, hp3, hp4, hq1, hq2, hq3, hq4, hq5]
  · intro p u hp hu1 hu2 hu3 hu4 hu5
    have hu : getContextPriority u = 999 := by
      simp [getContextPriority, hu1, hu2, hu3, hu4, hu5]
    rw [hu]
    have : getContextPriority p < 999 := by
      simp only [getContextPriority]
      rcases hp with h | h | h | h | h <;> split_ifs <;> simp_all
    exact this
  · intro a b rest l₁ l₂ r hdecomp h₁ h₂
    show pyMinBy (fun r => getContextPriority (ctxOf r)) (chooseBucket (a :: b :: rest)) = some r
    rw [hdecomp]
    exact pyMinBy_first (fun r => getContextPriority (ctxOf r)) h₁ h₂

/-- Witness for C2: priority comparisons at concrete context strings and the
resolver's stable choice among two equal-priority overall candidates plus a
prior-year candidate. -/
theorem claim_C2_witness :
    getContextPriority "CurrentYearDuration" < getContextPriority "Prior1YearDuration" ∧
    getContextPriority "Prior1YearDuration" < getContextPriority "Prior2YearDuration" ∧
    getContextPriority "Prior2YearDuration" < getContextPriority "Prior3YearDuration" ∧
    getContextPriority "Prior3YearDuration" < getContextPriority "Prior4YearDuration" ∧
    getContextPriority "Prior4YearDuration" < getContextPriority "OtherDuration" ∧
    selectBestValueByContext [samplePriorCand, sampleOverallCand, sampleOverallCand] =
      some sampleOverallCand := by
  obtain ⟨h1, h2, h3, h4, h5, h6⟩ := claim_C2
  refine ⟨h1 _ _ (by decide) (by decide) (Or.inl (by decide)),
    h2 _ _ (by decide) (by decide) (by decide) (by decide) (by decide),
    h3 _ _ (by decide) (by decide) (by decide) (by decide) (by decide) (by decide) (by decide),
    h4 _ _ (by decide) (by decide) (by decide) (by decide) (by decide) (by decide) (by decide)
      (by decide) (by decide),
    h5 _ _ (Or.inr (Or.inr (Or.inr (Or.inr (by decide))))) (by decide) (by decide) (by decide)
      (by decide) (by decide),
    h6 samplePriorCand sampleOverallCand [sampleOverallCand]
      [samplePriorCand] [sampleOverallCand] sampleOverallCand (by decide)
      (by decide) (by decide)⟩

/-! ## Unit normalizer (`_apply_ixbrl_attributes`, edinet.py:964-1015) -/

/-- ASCII digit test. -/
def isDig (c : Char) : Bool :=
  '0' ≤ c && c ≤ '9'

/-- Whitespace stripped by Python `float()`/`int()` around a numeral. -/
def isPyWs (c : Char) : Bool :=
  c = ' ' || c = '\t' || c = '\n' || c = '\r' || c = '\x0b' || c = '\x0c'

/-- Strip whitespace from both ends. -/
def trimWs (cs : List Char) : List Char :=
  ((cs.dropWhile isPyWs).reverse.dropWhile isPyWs).reverse

/-- Numeric value of a digit run. -/
def digitsVal (cs : List Char) : ℕ :=
  cs.foldl (fun n c => 10 * n + (c.toNat - 48)) 0

/-- Leading sign of a numeral: `(isNegative, rest)`. -/
def readSign : List Char → Bool × List Char
  | '-' :: rest => (true, rest)
  | '+' :: rest => (false, rest)
  | cs => (false, cs)

/-- The shape of an accepted Python float literal: sign, integer part,
fraction digits (value and count), exponent sign and value. -/
structure FloatLit where
  neg : Bool
  intV : ℕ
  fracV : ℕ
  fracLen : ℕ
  expNeg : Bool
  expV : ℕ
  deriving Repr, DecidableEq

/-- Exact decimal value of a float literal. -/
def floatLitVal (f : FloatLit) : ℚ :=
  let mant : ℚ := (f.intV : ℚ) + (f.fracV : ℚ) / 10 ^ f.fracLen
  let signed := if f.neg then -mant else mant
  if f.expNeg then signed / 10 ^ f.expV else signed * 10 ^ f.expV

/-- Optional exponent suffix of a Python float literal; anything but a
complete `e[sign]digits` suffix (or no suffix at all) is rejected. -/
def scanExpPart : List Char → Option (Bool × ℕ)
  | [] => some (false, 0)
  | e :: rest =>
    if e = 'e' || e = 'E' then
      let (neg, rest2) := readSign rest
      let ds := rest2.takeWhile isDig
      let rest3 := rest2.dropWhile isDig
      if ds = [] ∨ rest3 ≠ [] then none
      else some (neg, digitsVal ds)
    else none

/-- Unsigned part of a Python float literal: `digits [. digits] [exp]` or
`[digits] . digits [exp]`, with at least one digit overall. -/
def scanUnsignedFloat (neg : Bool) (cs : List Char) : Option FloatLit :=
  let intPart := cs.takeWhile isDig
  let rest := cs.dropWhile isDig
  match rest with
  | [] =>
    if intPart = [] then none
    else some ⟨neg, digitsVal intPart, 0, 0, false, 0⟩
  | '.' :: rest2 =>
    let fracPart := rest2.takeWhile isDig
    let rest3 := rest2.dropWhile isDig
    if intPart = [] ∧ fracPart = [] then none
    else
      (scanExpPart rest3).map fun e =>
        ⟨neg, digitsVal intPart, digitsVal fracPart, fracPart.length, e.1, e.2⟩
  | _ =>
    if intPart = [] then none
    else (scanExpPart rest).map fun e => ⟨neg, digitsVal intPart, 0, 0, e.1, e.2⟩

/-- Character-level scan of a Python float literal (whitespace-trimmed,
signed). -/
def scanPyFloat (s : String) : Option FloatLit :=
  let cs := trimWs s.toList
  let (neg, cs2) := readSign cs
  scanUnsignedFloat neg cs2

/-- Python `float(s)` on decimal literals, as a partial function into ℚ
(the ideal decimal value; the claims under test involve no binary-float
rounding). The `inf`/`nan` spellings and digit-group underscores accepted by
CPython are not modelled — the normalizer's inputs are numeral strings. -/
def parsePyFloat (s : String) : Option ℚ :=
  (scanPyFloat s).map floatLitVal

/-- Python `int(s)` on decimal literals (sign plus digits). -/
def parsePyInt (s : String) : Option ℤ :=
  let cs := trimWs s.toList
  let (neg, cs2) := readSign cs
  let ds := cs2.takeWhile isDig
  let rest := cs2.dropWhile isDig
  if ds = [] ∨ rest ≠ [] then none
  else some (if neg then -(digitsVal ds : ℤ) else (digitsVal ds : ℤ))

/-- `str.replace(',', '')` (edinet.py:967). -/
def stripCommas (s : String) : String :=
  String.mk (s.toList.filter (fun c => c ≠ ','))

/-- Round-half-to-even to an integer, the rounding Python `round` uses. -/
def roundHalfEven (x : ℚ) : ℤ :=
  let fl := ⌊x⌋
  if x - fl < 1 / 2 then fl
  else if 1 / 2 < x - fl then fl + 1
  else if Even fl then fl else fl + 1

/-- Python `round(x, k)` for `k ≥ 0` decimal places. -/
def pyRound (x : ℚ) (k : ℕ) : ℚ :=
  (roundHalfEven (x * 10 ^ k) : ℚ) / 10 ^ k

/-- Python `int(x)` on a float: truncation toward zero. -/
def pyTrunc (q : ℚ) : ℤ :=
  if 0 ≤ q then ⌊q⌋ else -⌊-q⌋

/-- `_apply_ixbrl_attributes` (edinet.py:964-1015): parse the literal with
separators stripped (`float(str(v).replace(',',''))`, parse failure → `0.0`
with a warning), multiply by `10 ** scale` when a scale attribute parses,
then apply decimals (negative: divide by `10 ** |decimals|`; non-negative:
round to that many places), then cast salary/headcount fields to int
(unitRef only triggers logging). Unparseable scale/decimals attributes leave
the value unchanged, as the code's per-attribute `except ValueError` does. -/
def applyIxbrlAttributes (result : ExtractedValue) (field : String) : ℚ :=
  match parsePyFloat (stripCommas result.value) with
  | none => 0
  | some v0 =>
    let v1 :=
      match result.scale with
      | none => v0
      | some s =>
        match parsePyInt s with
        | none => v0
        | some k => if 0 ≤ k then v0 * 10 ^ k.toNat else v0 / 10 ^ (-k).toNat
    let v2 :=
      match result.decimals with
      | none => v1
      | some d =>
        match parsePyInt d with
        | none => v1
        | some m => if m < 0 then v1 / 10 ^ m.natAbs else pyRound v1 m.toNat
    if field = "avgAnnualSalaryJPY" ∨ field = "employeeCount" then (pyTrunc v2 : ℚ) else v2

example : scanPyFloat "12500" = some ⟨false, 12500, 0, 0, false, 0⟩ := by decide
example : scanPyFloat "-1.5e2" = some ⟨true, 1, 5, 1, false, 2⟩ := by decide
example : parsePyFloat "abc" = none := by decide
example : parsePyFloat "12.3.4" = none := by decide
example : parsePyFloat "-1.5e2" = some (-150) := by
  have h : scanPyFloat "-1.5e2" = some ⟨true, 1, 5, 1, false, 2⟩ := by decide
  simp [parsePyFloat, h, floatLitVal]
  norm_num

/-- C3: the normalizer applies the scale attribute (multiply by `10^scale`)
before the decimals attribute (negative: divide by `10^|decimals|`;
non-negative: round to that many places), and on the spec's scenarios:
`"12,500"` with scale `"3"` normalizes to `12,500,000`, and `"11453407"`
with decimals `"-6"` and no scale normalizes to `11.453407` (on a
float-typed field; salary/headcount fields are additionally cast to int). -/
theorem claim_C3 :
    (∀ (r : ExtractedValue) (field : String) (v : ℚ) (s d : String) (k m : ℤ),
      r.scale = some s → r.decimals = some d →
      parsePyInt s = some k → 0 ≤ k → parsePyInt d = some m →
      parsePyFloat (stripCommas r.value) = some v →
      applyIxbrlAttributes r field =
        (let v1 := v * 10 ^ k.toNat
         let v2 := if m < 0 then v1 / 10 ^ m.natAbs else pyRound v1 m.toNat
         if field = "avgAnnualSalaryJPY" ∨ field = "employeeCount"
           then (pyTrunc v2 : ℚ) else v2)) ∧
    applyIxbrlAttributes ⟨"12,500", none, none, some "3", none⟩ "avgAnnualSalaryJPY" =
      12500000 ∧
    applyIxbrlAttributes ⟨"11453407", none, none, none, some "-6"⟩ "avgTenureYears" =
      11.453407 := by
  refine ⟨?_, ?_, ?_⟩
  · intro r field v s d k m hs hd hks hk0 hmd hv
    simp only [applyIxbrlAttributes, hs, hd, hks, hmd, hv, hk0, if_pos]
  · have h : scanPyFloat (stripCommas "12,500") = some ⟨false, 12500, 0, 0, false, 0⟩ := by
      decide
    have hi : parsePyInt "3" = some 3 := by decide
    simp only [applyIxbrlAttributes, parsePyFloat, h, Option.map_some, hi]
    norm_num [floatLitVal, pyTrunc]
    rw [show Int.toNat 3 = 3 from rfl]
    norm_num
  · have h : scanPyFloat (stripCommas "11453407") =
        some ⟨false, 11453407, 0, 0, false, 0⟩ := by decide
    have hi : parsePyInt "-6" = some (-6) := by decide
    simp only [applyIxbrlAttributes, parsePyFloat, h, Option.map_some, hi]
    norm_num [floatLitVal]
    exact fun hcontra => absurd hcontra (by decide)

/-- Witness for C3's general scale-before-decimals clause at a concrete
input: value `"2,000"`, scale `"3"`, decimals `"-2"` on an int-cast field
gives `2000 · 10³ / 10² = 20000`. -/
theorem claim_C3_witness :
    applyIxbrlAttributes ⟨"2,000", none, none, some "3", some "-2"⟩ "employeeCount" =
      20000 := by
  have h := claim_C3.1 ⟨"2,000", none, none, some "3", some "-2"⟩ "employeeCount"
    2000 "3" "-2" 3 (-2) rfl rfl (by decide) (by decide) (by decide)
    (by
      have hs : scanPyFloat (stripCommas "2,000") =
          some ⟨false, 2000, 0, 0, false, 0⟩ := by decide
      simp [parsePyFloat, hs, floatLitVal])
  rw [h]
  norm_num [pyTrunc]
  rw [show Int.toNat 3 = 3 from rfl]
  norm_num

/-- C4: an unparseable literal makes the normalizer return zero (the code's
`except (ValueError, AttributeError)` path); no other outcome is possible
for such inputs. -/
theorem claim_C4 (r : ExtractedValue) (field : String)
    (h : parsePyFloat (stripCommas r.value) = none) :
    applyIxbrlAttributes r field = 0 := by
  simp only [applyIxbrlAttributes, h]

/-- Witness for C4 at the unparseable literal `"N/A"`. -/
theorem claim_C4_witness :
    parsePyFloat (stripCommas "N/A") = none ∧
    applyIxbrlAttributes ⟨"N/A", none, none, none, none⟩ "employeeCount" = 0 :=
  ⟨by decide, claim_C4 ⟨"N/A", none, none, none, none⟩ "employeeCount" (by decide)⟩

/-! ## Submission-year and founding-year extraction
(`_extract_submission_year`, edinet.py:514-565; `_extract_founded_year`,
edinet.py:567-691).

The regex scans feeding the loops are abstracted as explicit match-list
parameters: `patternFirstYears` holds, per submission-date pattern in the
code's order, the year of the pattern's first `re.findall` match (`none`
when the pattern has no match); `filenameYears` holds the years of the
`\d{4}-\d{2}-\d{2}` matches in the source filename, in order; `periods`
holds, per business-year pattern that matched, the fiscal-period ordinal of
its first match; `findall p content` holds the years `re.findall(p, content)`
yields. The loop structure around these inputs is translated exactly. -/

/-- `_extract_submission_year` (edinet.py:514-565): first in-window
(2020..2030) year among the per-pattern first matches, then the last
filename date if in-window, else nothing. An out-of-window year does not
fall through to later matches of the same source — the pattern loop moves
on, and an out-of-window last filename date ends the search. -/
def extractSubmissionYear : List (Option ℤ) → List ℤ → Option ℤ
  | [], filenameYears =>
    match filenameYears.getLast? with
    | some y => if 2020 ≤ y ∧ y ≤ 2030 then some y else none
    | none => none
  | none :: rest, filenameYears => extractSubmissionYear rest filenameYears
  | some y :: rest, filenameYears =>
    if 2020 ≤ y ∧ y ≤ 2030 then some y else extractSubmissionYear rest filenameYears

/-- Primary founding-year method (edinet.py:601-632): for each matched
fiscal-period ordinal, `founded = reference year − period + 1`, returned
when `1850 ≤ founded ≤ reference year`, otherwise the next pattern is
tried. -/
def primaryFoundedYear (refYear : ℤ) : List ℤ → Option ℤ
  | [] => none
  | p :: rest =>
    if 1850 ≤ refYear - p + 1 ∧ refYear - p + 1 ≤ refYear then some (refYear - p + 1)
    else primaryFoundedYear refYear rest

/-- `[y for y in matches if 1850 <= y <= submission_year]` (edinet.py:675-679). -/
def validFallbackYears (subYear : ℤ) (ms : List ℤ) : List ℤ :=
  ms.filter (fun y => decide (1850 ≤ y) && decide (y ≤ subYear))

/-- Python `min` over a list of years. -/
def listMinPy : List ℤ → Option ℤ
  | [] => none
  | x :: xs => some (xs.foldl min x)

/-- Inner loop of the founding-year fallback (edinet.py:668-684): for one
pattern, scan the header and honbun sections in order and return
`min(valid_years)` of the first section whose matches contain any valid
year. -/
def fallbackScanSections (findall : String → String → List ℤ) (p : String)
    (subYear : ℤ) : List (String × String) → Option ℤ
  | [] => none
  | s :: rest =>
    match listMinPy (validFallbackYears subYear (findall p s.2)) with
    | some y => some y
    | none => fallbackScanSections findall p subYear rest

/-- Outer loop of the founding-year fallback (edinet.py:668): patterns in
priority order, first pattern with a hit wins. -/
def fallbackFoundedYear (findall : String → String → List ℤ)
    (patterns : List String) (sections : List (String × String))
    (subYear : ℤ) : Option ℤ :=
  match patterns with
  | [] => none
  | p :: ps =>
    match fallbackScanSections findall p subYear sections with
    | some y => some y
    | none => fallbackFoundedYear findall ps sections subYear

/-- All valid years across every pattern and every section — what the spec's
"among all matches across all sections" refers to. -/
def allFallbackValidYears (findall : String → String → List ℤ)
    (patterns : List String) (sections : List (String × String))
    (subYear : ℤ) : List ℤ :=
  patterns.flatMap fun p => sections.flatMap fun s => validFallbackYears subYear (findall p s.2)

/-- `_extract_founded_year` (edinet.py:567-691): no submission year → `None`
(the fallback is not even reached); otherwise the fiscal-period method, and
on its failure the full-text fallback. -/
def extractFoundedYear (patternFirstYears : List (Option ℤ)) (filenameYears : List ℤ)
    (periods : List ℤ) (findall : String → String → List ℤ)
    (patterns : List String) (sections : List (String × String)) : Option ℤ :=
  match extractSubmissionYear patternFirstYears filenameYears with
  | none => none
  | some subYear =>
    match primaryFoundedYear subYear periods with
    | some fy => some fy
    | none => fallbackFoundedYear findall patterns sections subYear

/-- The `founded_patterns` regex cascade (edinet.py:638-658), in order. -/
def foundedPatterns : List String :=
  [r"(19\d{2})年.*?設立",
   r"(19\d{2})年.*?創立",
   r"(19\d{2})年.*?創業",
   r"(\d{4})年.*?設立",
   r"(\d{4})年.*?創立",
   r"(\d{4})年.*?創業",
   r"設立.*?(\d{4})年",
   r"創立.*?(\d{4})年",
   r"設立年.*?(\d{4})",
   r"Founded.*?(\d{4})",
   r"Established.*?(\d{4})",
   r"会社設立.*?(\d{4})年",
   r"法人設立.*?(\d{4})年",
   r"設立登記.*?(\d{4})年",
   r"創業.*?(\d{4})年"]

/-- Python `min` over a non-empty list: the result is a member and a lower
bound. -/
lemma foldlMin_int (xs : List ℤ) (x : ℤ) :
    xs.foldl min x ∈ x :: xs ∧ xs.foldl min x ≤ x ∧ ∀ z ∈ xs, xs.foldl min x ≤ z := by
  induction xs generalizing x with
  | nil => simp
  | cons a xs ih =>
    obtain ⟨hm, hle, hall⟩ := ih (min x a)
    simp only [List.foldl_cons]
    refine ⟨?_, ?_, ?_⟩
    · rcases List.mem_cons.mp hm with h | h
      · rcases min_choice x a with hc | hc
        · rw [h, hc]; exact List.mem_cons_self x (a :: xs)
        · rw [h, hc]; exact List.mem_cons_of_mem x (List.mem_cons_self a xs)
      · exact List.mem_cons_of_mem x (List.mem_cons_of_mem a h)
    · exact le_trans hle (min_le_left x a)
    · intro z hz
      rcases List.mem_cons.mp hz with rfl | hz
      · exact le_trans hle (min_le_right x z)
      · exact hall z hz

/-- `listMinPy` returns a member that bounds the whole list from below. -/
lemma listMinPy_spec {l : List ℤ} {y : ℤ} (h : listMinPy l = some y) :
    y ∈ l ∧ ∀ z ∈ l, y ≤ z := by
  cases l with
  | nil => simp [listMinPy] at h
  | cons x xs =>
    simp only [listMinPy, Option.some.injEq] at h
    subst h
    obtain ⟨hm, hle, hall⟩ := foldlMin_int xs x
    refine ⟨hm, ?_⟩
    intro z hz
    rcases List.mem_cons.mp hz with rfl | hz
    · exact hle
    · exact hall z hz

/-- `listMinPy` is `none` exactly on the empty list. -/
lemma listMinPy_eq_none {l : List ℤ} (h : listMinPy l = none) : l = [] := by
  cases l with
  | nil => rfl
  | cons x xs => simp [listMinPy] at h

/-- A successful section scan decomposes the section list: every earlier
section had no valid year, and the hit section's valid years have the
returned year as minimum. -/
lemma fallbackScanSections_some {findall : String → String → List ℤ} {p : String}
    {subYear : ℤ} : ∀ {sections : List (String × String)} {y : ℤ},
    fallbackScanSections findall p subYear sections = some y →
    ∃ s₁ s s₂, sections = s₁ ++ s :: s₂ ∧
      (∀ t ∈ s₁, validFallbackYears subYear (findall p t.2) = []) ∧
      listMinPy (validFallbackYears subYear (findall p s.2)) = some y := by
  intro sections
  induction sections with
  | nil => intro y h; simp [fallbackScanSections] at h
  | cons s rest ih =>
    intro y h
    simp only [fallbackScanSections] at h
    cases hm : listMinPy (validFallbackYears subYear (findall p s.2)) with
    | some y' =>
      rw [hm] at h
      refine ⟨[], s, rest, rfl, by simp, ?_⟩
      rw [hm]
      simpa using h
    | none =>
      rw [hm] at h
      obtain ⟨s₁, s', s₂, hdec, hnone, hmin⟩ := ih h
      exact ⟨s :: s₁, s', s₂, by rw [hdec]; rfl,
        by
          intro t ht
          rcases List.mem_cons.mp ht with rfl | ht
          · exact listMinPy_eq_none hm
          · exact hnone t ht,
        hmin⟩

/-- A successful fallback decomposes the pattern list: every earlier pattern
scanned every section without a valid year, and the hit pattern's section
scan returned the year. -/
lemma fallbackFoundedYear_some {findall : String → String → List ℤ}
    {sections : List (String × String)} {subYear : ℤ} :
    ∀ {patterns : List String} {y : ℤ},
    fallbackFoundedYear findall patterns sections subYear = some y →
    ∃ p₁ p p₂, patterns = p₁ ++ p :: p₂ ∧
      (∀ q ∈ p₁, fallbackScanSections findall q subYear sections = none) ∧
      fallbackScanSections findall p subYear sections = some y := by
  intro patterns
  induction patterns with
  | nil => intro y h; simp [fallbackFoundedYear] at h
  | cons p ps ih =>
    intro y h
    simp only [fallbackFoundedYear] at h
    cases hm : fallbackScanSections findall p subYear sections with
    | some y' =>
      rw [hm] at h
      exact ⟨[], p, ps, rfl, by simp, by rw [hm]; simpa using h⟩
    | none =>
      rw [hm] at h
      obtain ⟨p₁, p', p₂, hdec, hnone, hscan⟩ := ih h
      exact ⟨p :: p₁, p', p₂, by rw [hdec]; rfl,
        by
          intro q hq
          rcases List.mem_cons.mp hq with rfl | hq
          · exact hm
          · exact hnone q hq,
        hscan⟩

/-- C5: the primary founding-year method is the pure arithmetic
`founded = reference year − period + 1`, accepted exactly when
`1850 ≤ founded ≤ reference year`, with the fallback attempted on rejection;
reference year 2025 with period ordinal 65 yields 1961, accepted. -/
theorem claim_C5 :
    (∀ (refYear p : ℤ) (ps : List ℤ),
      primaryFoundedYear refYear (p :: ps) =
        if 1850 ≤ refYear - p + 1 ∧ refYear - p + 1 ≤ refYear then some (refYear - p + 1)
        else primaryFoundedYear refYear ps) ∧
    (∀ refYear p : ℤ,
      primaryFoundedYear refYear [p] = some (refYear - p + 1) ↔
        (1850 ≤ refYear - p + 1 ∧ refYear - p + 1 ≤ refYear)) ∧
    (∀ (patternFirstYears : List (Option ℤ)) (filenameYears : List ℤ)
        (periods : List ℤ) (findall : String → String → List ℤ)
        (patterns : List String) (sections : List (String × String)) (subYear : ℤ),
      extractSubmissionYear patternFirstYears filenameYears = some subYear →
      primaryFoundedYear subYear periods = none →
      extractFoundedYear patternFirstYears filenameYears periods findall patterns sections =
        fallbackFoundedYear findall patterns sections subYear) ∧
    primaryFoundedYear 2025 [65] = some 1961 := by
  refine ⟨fun _ _ _ => rfl, ?_, ?_, by decide⟩
  · intro refYear p
    constructor
    · intro h
      by_cases hc : 1850 ≤ refYear - p + 1 ∧ refYear - p + 1 ≤ refYear
      · exact hc
      · simp [primaryFoundedYear, hc] at h
    · intro hc
      simp [primaryFoundedYear, hc]
  · intro patternFirstYears filenameYears periods findall patterns sections subYear hsub hprim
    simp [extractFoundedYear, hsub, hprim]

/-- Witness for C5 at concrete inputs: the 2025/65 scenario through each
clause, and a rejected period (9999) routing to the (empty) fallback. -/
theorem claim_C5_witness :
    primaryFoundedYear 2025 [65] =
      (if 1850 ≤ 2025 - 65 + 1 ∧ 2025 - 65 + 1 ≤ 2025 then some (2025 - 65 + 1)
        else primaryFoundedYear 2025 []) ∧
    primaryFoundedYear 2025 [65] = some (2025 - 65 + 1) ∧
    extractFoundedYear [some 2025] [] [9999] (fun _ _ => []) [] [] =
      fallbackFoundedYear (fun _ _ => []) [] [] 2025 :=
  ⟨claim_C5.1 2025 65 [],
   (claim_C5.2.1 2025 65).mpr (by decide),
   claim_C5.2.2.1 [some 2025] [] [9999] (fun _ _ => []) [] [] 2025 (by decide) (by decide)⟩

/-- The two concrete sections of the C6 refutation: the header body mentions
a 1950 establishment, a honbun body mentions an earlier 1900 one. -/
def fallbackSections0 : List (String × String) :=
  [("header.htm", "1950年設立"), ("honbun1.htm", "1900年設立")]

/-- Regex oracle for the C6 refutation: `re.findall` of each founded
pattern over the two section bodies above. Only the year-before-設立
patterns `(19\d{2})年.*?設立` and `(\d{4})年.*?設立` match (one match each,
the year); every other pattern needs a 創立/創業/設立年/English label or a
year after 設立, none of which occur in these bodies. -/
def findallFounded0 (p content : String) : List ℤ :=
  if p = r"(19\d{2})年.*?設立" ∨ p = r"(\d{4})年.*?設立" then
    if content = "1950年設立" then [1950]
    else if content = "1900年設立" then [1900]
    else []
  else []

/-- Counterexample to C6 as stated: with a 1950 mention in the first scanned
section and a 1900 mention in a later one, the code returns 1950 (the
minimum within the first pattern-section pair that hits), not the earliest
year among all matches across all sections, which is 1900. -/
theorem claim_C6_counterexample :
    fallbackFoundedYear findallFounded0 foundedPatterns fallbackSections0 2025 = some 1950 ∧
    listMinPy (allFallbackValidYears findallFounded0 foundedPatterns fallbackSections0 2025) =
      some 1900 ∧
    fallbackFoundedYear findallFounded0 foundedPatterns fallbackSections0 2025 ≠
      listMinPy (allFallbackValidYears findallFounded0 foundedPatterns fallbackSections0 2025) := by
  refine ⟨by decide, by decide, by decide⟩

/-- C6 as amended: the fallback returns the minimum valid year (within
`[1850, submission year]`) of the matches of one pattern-section pair — the
first hit in pattern-major, section-minor order — so the returned year is a
valid match of some scanned pattern and section, minimal within that pair's
matches (but not necessarily across all sections). -/
theorem claim_C6 (findall : String → String → List ℤ) (patterns : List String)
    (sections : List (String × String)) (subYear y : ℤ)
    (h : fallbackFoundedYear findall patterns sections subYear = some y) :
    ∃ p₁ p p₂ s₁ s s₂, patterns = p₁ ++ p :: p₂ ∧ sections = s₁ ++ s :: s₂ ∧
      (∀ q ∈ p₁, fallbackScanSections findall q subYear sections = none) ∧
      (∀ t ∈ s₁, validFallbackYears subYear (findall p t.2) = []) ∧
      y ∈ validFallbackYears subYear (findall p s.2) ∧
      (∀ z ∈ validFallbackYears subYear (findall p s.2), y ≤ z) ∧
      1850 ≤ y ∧ y ≤ subYear := by
  obtain ⟨p₁, p, p₂, hpdec, hpnone, hscan⟩ := fallbackFoundedYear_some h
  obtain ⟨s₁, s, s₂, hsdec, hsnone, hmin⟩ := fallbackScanSections_some hscan
  obtain ⟨hmem, hbound⟩ := listMinPy_spec hmin
  have hval := hmem
  simp only [validFallbackYears, List.mem_filter, Bool.and_eq_true, decide_eq_true_eq] at hval
  exact ⟨p₁, p, p₂, s₁, s, s₂, hpdec, hsdec, hpnone, hsnone, hmem, hbound,
    hval.2.1, hval.2.2⟩

/-- Witness for amended C6 at the refutation's concrete input. -/
theorem claim_C6_witness :
    ∃ p₁ p p₂ s₁ s s₂, foundedPatterns = p₁ ++ p :: p₂ ∧
      fallbackSections0 = s₁ ++ s :: s₂ ∧
      (∀ q ∈ p₁, fallbackScanSections findallFounded0 q 2025 fallbackSections0 = none) ∧
      (∀ t ∈ s₁, validFallbackYears 2025 (findallFounded0 p t.2) = []) ∧
      (1950 : ℤ) ∈ validFallbackYears 2025 (findallFounded0 p s.2) ∧
      (∀ z ∈ validFallbackYears 2025 (findallFounded0 p s.2), (1950 : ℤ) ≤ z) ∧
      (1850 : ℤ) ≤ 1950 ∧ (1950 : ℤ) ≤ 2025 :=
  claim_C6 findallFounded0 foundedPatterns fallbackSections0 2025 1950 (by decide)

/-- C10: submission years outside the 2020..2030 window — in every
document-text pattern match and every filename date — make the reference
year `None`, and founding-year extraction then returns `None` without
applying the fiscal-period method (the "yields None" arm of the claim's
disjunction). -/
theorem claim_C10 (patternFirstYears : List (Option ℤ)) (filenameYears : List ℤ)
    (hp : ∀ y : ℤ, some y ∈ patternFirstYears → ¬(2020 ≤ y ∧ y ≤ 2030))
    (hf : ∀ y ∈ filenameYears, ¬(2020 ≤ y ∧ y ≤ 2030)) :
    extractSubmissionYear patternFirstYears filenameYears = none ∧
    ∀ (periods : List ℤ) (findall : String → String → List ℤ)
      (patterns : List String) (sections : List (String × String)),
      extractFoundedYear patternFirstYears filenameYears periods findall patterns sections =
        none := by
  have key : ∀ (pfy : List (Option ℤ)),
      (∀ y : ℤ, some y ∈ pfy → ¬(2020 ≤ y ∧ y ≤ 2030)) →
      extractSubmissionYear pfy filenameYears = none := by
    intro pfy
    induction pfy with
    | nil =>
      intro _
      cases hfy : filenameYears.getLast? with
      | none => simp [extractSubmissionYear, hfy]
      | some y =>
        have hym : y ∈ filenameYears := by
          obtain ⟨hne, rfl⟩ := List.mem_getLast?_eq_getLast (x := y)
            (l := filenameYears) (by simp [hfy, Option.mem_def])
          exact List.getLast_mem hne
        simp [extractSubmissionYear, hfy, hf y hym]
    | cons o rest ih =>
      intro hp'
      have ih' := ih (fun y hy => hp' y (List.mem_cons_of_mem o hy))
      cases o with
      | none => simpa [extractSubmissionYear] using ih'
      | some y =>
        have : ¬(2020 ≤ y ∧ y ≤ 2030) := hp' y (List.mem_cons_self _ _)
        simpa [extractSubmissionYear, this] using ih'
  have hs := key patternFirstYears hp
  refine ⟨hs, ?_⟩
  intro periods findall patterns sections
  simp [extractFoundedYear, hs]

/-- Witness for C10: a 2019 text year and a 1999 filename year, both outside
the window, give no reference year and no founding year. -/
theorem claim_C10_witness :
    extractSubmissionYear [some 2019, none] [1999] = none ∧
    ∀ (periods : List ℤ) (findall : String → String → List ℤ)
      (patterns : List String) (sections : List (String × String)),
      extractFoundedYear [some 2019, none] [1999] periods findall patterns sections = none :=
  claim_C10 [some 2019, none] [1999]
    (by
      intro y hy
      simp only [List.mem_cons, List.not_mem_nil, or_false] at hy
      rcases hy with h | h
      · obtain rfl : y = 2019 := Option.some.inj h
        decide
      · exact (Option.some_ne_none y h).elim)
    (by decide)

/-! ## Employee-count selection (`_extract_employee_count`, edinet.py:1017-1065).
`values` abstracts the numeric values of all regex-battery matches after the
code's digit cleanup (`re.sub(r'[^0-9]','',...)`); entries whose cleanup is
empty or unconvertible are skipped by the code and hence absent here. -/

/-- The running-max step (edinet.py:1046-1053):
`if value > max_value and value > 100: max_value = value`. -/
def empCountStep (mx v : ℕ) : ℕ :=
  if mx < v ∧ 100 < v then v else mx

/-- `_extract_employee_count`'s selection over the collected match values:
largest value strictly above the 100 floor, if any, else `None`. -/
def selectEmployeeCount (values : List ℕ) : Option ℕ :=
  let m := values.foldl empCountStep 0
  if 0 < m then some m else none

/-- Step equation: replacement on a strictly larger above-floor value. -/
lemma empCountStep_pos {mx v : ℕ} (h : mx < v ∧ 100 < v) : empCountStep mx v = v :=
  if_pos h

/-- Step equation: anything else keeps the running max. -/
lemma empCountStep_neg {mx v : ℕ} (h : ¬(mx < v ∧ 100 < v)) : empCountStep mx v = mx :=
  if_neg h

/-- One step never decreases the running max. -/
lemma empCountStep_ge (mx v : ℕ) : mx ≤ empCountStep mx v := by
  by_cases h : mx < v ∧ 100 < v
  · rw [empCountStep_pos h]
    exact le_of_lt h.1
  · rw [empCountStep_neg h]

/-- The running max never decreases. -/
lemma empCountFold_ge (values : List ℕ) (init : ℕ) :
    init ≤ values.foldl empCountStep init := by
  induction values generalizing init with
  | nil => simp
  | cons a l ih =>
    simp only [List.foldl_cons]
    exact le_trans (empCountStep_ge init a) (ih (empCountStep init a))

/-- The running max is the initial value or a list element above the floor. -/
lemma empCountFold_mem (values : List ℕ) (init : ℕ) :
    values.foldl empCountStep init = init ∨
      (values.foldl empCountStep init ∈ values ∧ 100 < values.foldl empCountStep init) := by
  induction values generalizing init with
  | nil => simp
  | cons a l ih =>
    simp only [List.foldl_cons]
    by_cases h : init < a ∧ 100 < a
    · rw [empCountStep_pos h]
      rcases ih a with he | ⟨hm, hgt⟩
      · exact Or.inr ⟨by rw [he]; exact List.mem_cons_self a l, by rw [he]; exact h.2⟩
      · exact Or.inr ⟨List.mem_cons_of_mem a hm, hgt⟩
    · rw [empCountStep_neg h]
      rcases ih init with he | ⟨hm, hgt⟩
      · exact Or.inl he
      · exact Or.inr ⟨List.mem_cons_of_mem a hm, hgt⟩

/-- Every above-floor list element is bounded by the running max. -/
lemma empCountFold_le (values : List ℕ) (init : ℕ) :
    ∀ v ∈ values, 100 < v → v ≤ values.foldl empCountStep init := by
  induction values generalizing init with
  | nil => simp
  | cons a l ih =>
    intro v hv h100
    simp only [List.foldl_cons]
    rcases List.mem_cons.mp hv with rfl | hv
    · by_cases h : init < v ∧ 100 < v
      · refine le_trans ?_ (empCountFold_ge l (empCountStep init v))
        rw [empCountStep_pos h]
      · have hvi : v ≤ init := by
          rcases not_and_or.mp h with h' | h'
          · exact le_of_not_lt h'
          · exact absurd h100 h'
        exact le_trans hvi
          (le_trans (empCountStep_ge init v) (empCountFold_ge l (empCountStep init v)))
    · exact ih (empCountStep init a) v hv h100

/-- When no value exceeds the floor the running max stays zero. -/
lemma empCountFold_zero (values : List ℕ) (h : ∀ v ∈ values, v ≤ 100) :
    values.foldl empCountStep 0 = 0 := by
  induction values with
  | nil => simp
  | cons a l ih =>
    simp only [List.foldl_cons]
    have ha : ¬(0 < a ∧ 100 < a) := by
      rintro ⟨-, h100⟩
      exact absurd (h a (List.mem_cons_self a l)) (not_le.mpr h100)
    unfold empCountStep
    rw [if_neg ha]
    exact ih (fun v hv => h v (List.mem_cons_of_mem a hv))

/-- C7: employee-count selection either returns nothing or returns the
single largest match value, which is strictly above the plausibility floor
of 100 and bounds every match value — even when sub-floor values occur; it
returns nothing exactly when every match value is at or below the floor. -/
theorem claim_C7 (values : List ℕ) :
    (∀ r, selectEmployeeCount values = some r →
      r ∈ values ∧ 100 < r ∧ ∀ v ∈ values, v ≤ r) ∧
    (selectEmployeeCount values = none ↔ ∀ v ∈ values, v ≤ 100) := by
  constructor
  · intro r hr
    simp only [selectEmployeeCount] at hr
    by_cases hpos : 0 < values.foldl empCountStep 0
    · rw [if_pos hpos] at hr
      obtain rfl : values.foldl empCountStep 0 = r := by simpa using hr
      rcases empCountFold_mem values 0 with he | ⟨hm, hgt⟩
      · rw [he] at hpos
        exact absurd hpos (lt_irrefl 0)
      · refine ⟨hm, hgt, ?_⟩
        intro v hv
        by_cases h100 : 100 < v
        · exact empCountFold_le values 0 v hv h100
        · exact le_trans (le_of_not_lt h100) (le_of_lt hgt)
    · rw [if_neg hpos] at hr
      exact absurd hr (by simp)
  · constructor
    · intro hn v hv
      simp only [selectEmployeeCount] at hn
      by_cases hpos : 0 < values.foldl empCountStep 0
      · rw [if_pos hpos] at hn
        exact absurd hn (by simp)
      · have h0 : values.foldl empCountStep 0 = 0 := Nat.eq_zero_of_not_pos hpos
        by_contra h100
        have hle := empCountFold_le values 0 v hv (lt_of_not_le h100)
        rw [h0] at hle
        have hz : v = 0 := Nat.le_zero.mp hle
        rw [hz] at h100
        exact h100 (by norm_num)
    · intro hall
      simp only [selectEmployeeCount]
      rw [empCountFold_zero values hall]
      simp

/-- Witness for C7: values 5000, 90, 12000 select 12000 (largest, above the
floor, bounding all values including the sub-floor 90); values 50, 100
select nothing. -/
theorem claim_C7_witness :
    ((12000 : ℕ) ∈ [5000, 90, 12000] ∧ 100 < 12000 ∧
      ∀ v ∈ [5000, 90, 12000], v ≤ 12000) ∧
    (selectEmployeeCount [50, 100] = none ↔ ∀ v ∈ [50, 100], v ≤ 100) :=
  ⟨(claim_C7 [5000, 90, 12000]).1 12000 (by decide), (claim_C7 [50, 100]).2⟩

/-! ## Document locator (`match_company`, edinet.py:1258-1264;
`scan_date_for_reports`, edinet.py:1273-1298; `find_latest_reports`,
edinet.py:1300-1357).

Dates are modelled as naturals (the code compares ISO `YYYY-MM-DD` strings,
whose lexicographic order coincides with chronological order at fixed
length); the filing-registry query `api.get_document_list(date)` is the
explicit `docList` parameter; the per-company dict is an association list
with Python-dict insertion/overwrite semantics. -/

/-- One filing-index entry as consumed by `scan_date_for_reports`. -/
structure DocEntry where
  docTypeCode : String
  filerName : String
  docID : String
  secCode : Option String
  deriving Repr, DecidableEq

/-- The `CompanyDocument` record (document id, filer name, submission date,
doc type, matched company key, truncated security code). -/
structure CompanyDocument where
  document_id : String
  company_name : String
  submitted_date : ℕ
  doc_type : String
  company_key : String
  sec_code : Option String
  deriving Repr, DecidableEq

/-- `match_company` (edinet.py:1258-1264): first tracked company (in
registry order) one of whose legal-name keywords occurs in the filer name
as an exact substring. -/
def matchCompany (targets : List (String × List String)) (name : String) : Option String :=
  match targets with
  | [] => none
  | (key, keywords) :: rest =>
    if keywords.any (fun kw => strContains kw name) then some key
    else matchCompany rest name

/-- Report construction (edinet.py:1287-1294), including the
`secCode[:4] if secCode else None` truncation (empty string is falsy). -/
def mkReport (e : DocEntry) (key : String) (date : ℕ) : CompanyDocument :=
  ⟨e.docID, e.filerName, date, "120",  key,
    match e.secCode with
    | some s => if s ≠ "" then some (s.take 4) else none
    | none => none⟩

/-- `scan_date_for_reports` (edinet.py:1273-1298): keep type-120 entries
whose filer name matches a tracked company. -/
def scanDateForReports (targets : List (String × List String))
    (docs : List DocEntry) (date : ℕ) : List CompanyDocument :=
  docs.filterMap fun e =>
    if e.docTypeCode = "120" then
      (matchCompany targets e.filerName).map fun key => mkReport e key date
    else none

/-- Python dict lookup on an association list. -/
def dictFind (key : String) : List (String × CompanyDocument) → Option CompanyDocument
  | [] => none
  | (k, v) :: rest => if k = key then some v else dictFind key rest

/-- Python dict assignment: overwrite in place, else append. -/
def dictSet (key : String) (v : CompanyDocument) :
    List (String × CompanyDocument) → List (String × CompanyDocument)
  | [] => [(key, v)]
  | (k, w) :: rest =>
    if k = key then (k, v) :: rest else (k, w) :: dictSet key v rest

/-- The per-report dict update (edinet.py:1325-1333): record the report when
the company is new or the report is strictly more recent. -/
def updateLatest (acc : List (String × CompanyDocument)) (r : CompanyDocument) :
    List (String × CompanyDocument) :=
  match dictFind r.company_key acc with
  | none => dictSet r.company_key r acc
  | some old =>
    if old.submitted_date < r.submitted_date then dictSet r.company_key r acc else acc

/-- The date-scan loop of `find_latest_reports` (edinet.py:1314-1341):
dates most recent first, one scan per date, early exit once every tracked
company has a report. -/
def findLatestReports (targets : List (String × List String))
    (docList : ℕ → List DocEntry) :
    List ℕ → List (String × CompanyDocument) → List (String × CompanyDocument)
  | [], acc => acc
  | d :: ds, acc =>
    let acc' := (scanDateForReports targets (docList d) d).foldl updateLatest acc
    if acc'.length = targets.length then acc'
    else findLatestReports targets docList ds acc'

/-- An index entry that counts for company `k`: annual-securities-report
type code and filer-name keyword match. -/
def entryMatches (targets : List (String × List String)) (e : DocEntry) (k : String) : Prop :=
  e.docTypeCode = "120" ∧ matchCompany targets e.filerName = some k

/-- Dict lookup after assignment. -/
lemma dictFind_dictSet (q key : String) (v : CompanyDocument)
    (acc : List (String × CompanyDocument)) :
    dictFind q (dictSet key v acc) = if key = q then some v else dictFind q acc := by
  induction acc with
  | nil =>
    by_cases h : key = q <;> simp [dictSet, dictFind, h]
  | cons p rest ih =>
    obtain ⟨k, w⟩ := p
    by_cases hk : k = key
    · subst hk
      by_cases hq : k = q
      · subst hq
        simp [dictSet, dictFind]
      · simp [dictSet, dictFind, hq]
    · by_cases hq : k = q
      · subst hq
        have hkey : ¬ key = k := fun h => hk h.symm
        simp [dictSet, dictFind, hk, hkey]
      · simp [dictSet, dictFind, hk, hq, ih]

/-- An element of the dict after assignment is an old entry or the new one. -/
lemma mem_dictSet {p : String × CompanyDocument} {key : String}
    {v : CompanyDocument} {acc : List (String × CompanyDocument)}
    (h : p ∈ dictSet key v acc) : p ∈ acc ∨ p = (key, v) := by
  induction acc with
  | nil =>
    right
    simpa [dictSet] using h
  | cons q rest ih =>
    obtain ⟨k, w⟩ := q
    by_cases hk : k = key
    · subst hk
      simp only [dictSet, if_pos rfl] at h
      rcases List.mem_cons.mp h with rfl | h
      · exact Or.inr rfl
      · exact Or.inl (List.mem_cons_of_mem _ h)
    · simp only [dictSet, if_neg hk] at h
      rcases List.mem_cons.mp h with rfl | h
      · exact Or.inl (List.mem_cons_self _ _)
      · rcases ih h with h' | h'
        · exact Or.inl (List.mem_cons_of_mem _ h')
        · exact Or.inr h'

/-- Assignment only adds the assigned key. -/
lemma keys_dictSet_subset {x key : String} {v : CompanyDocument}
    {acc : List (String × CompanyDocument)}
    (h : x ∈ (dictSet key v acc).map Prod.fst) :
    x ∈ acc.map Prod.fst ∨ x = key := by
  obtain ⟨p, hp, rfl⟩ := List.mem_map.mp h
  rcases mem_dictSet hp with h' | h'
  · exact Or.inl (List.mem_map.mpr ⟨p, h', rfl⟩)
  · rw [h']
    exact Or.inr rfl

/-- Assignment preserves key distinctness. -/
lemma dictSet_nodup {key : String} {v : CompanyDocument}
    {acc : List (String × CompanyDocument)}
    (h : (acc.map Prod.fst).Nodup) : ((dictSet key v acc).map Prod.fst).Nodup := by
  induction acc with
  | nil => simp [dictSet]
  | cons p rest ih =>
    obtain ⟨k, w⟩ := p
    simp only [List.map_cons, List.nodup_cons] at h
    by_cases hk : k = key
    · subst hk
      simpa [dictSet, List.nodup_cons] using h
    · simp only [dictSet, if_neg hk, List.map_cons, List.nodup_cons]
      refine ⟨?_, ih h.2⟩
      intro hmem
      rcases keys_dictSet_subset hmem with h' | h'
      · exact h.1 h'
      · exact hk h'

/-- A successful lookup names an entry of the list. -/
lemma dictFind_mem {k : String} {v : CompanyDocument}
    {acc : List (String × CompanyDocument)} (h : dictFind k acc = some v) :
    (k, v) ∈ acc := by
  induction acc with
  | nil => simp [dictFind] at h
  | cons p rest ih =>
    obtain ⟨k', w⟩ := p
    by_cases hk : k' = k
    · subst hk
      have he : dictFind k' ((k', w) :: rest) = some w := by simp [dictFind]
      rw [he] at h
      obtain rfl : w = v := Option.some.inj h
      exact List.mem_cons_self _ _
    · simp only [dictFind, if_neg hk] at h
      exact List.mem_cons_of_mem _ (ih h)

/-- With distinct keys, each entry is what its key looks up to. -/
lemma dictFind_of_mem {p : String × CompanyDocument}
    {acc : List (String × CompanyDocument)} (hnd : (acc.map Prod.fst).Nodup)
    (h : p ∈ acc) : dictFind p.1 acc = some p.2 := by
  induction acc with
  | nil => simp at h
  | cons q rest ih =>
    obtain ⟨k', w⟩ := q
    simp only [List.map_cons, List.nodup_cons] at hnd
    rcases List.mem_cons.mp h with rfl | h
    · simp [dictFind]
    · have hne : k' ≠ p.1 := by
        intro he
        exact hnd.1 (he ▸ (List.mem_map.mpr ⟨p, h, rfl⟩))
      simp only [dictFind, if_neg hne]
      exact ih hnd.2 h

/-- Update equation: unseen company. -/
lemma updateLatest_eq_new {acc : List (String × CompanyDocument)} {r : CompanyDocument}
    (hf : dictFind r.company_key acc = none) :
    updateLatest acc r = dictSet r.company_key r acc := by
  unfold updateLatest
  rw [hf]

/-- Update equation: strictly more recent report replaces. -/
lemma updateLatest_eq_replace {acc : List (String × CompanyDocument)}
    {r old : CompanyDocument} (hf : dictFind r.company_key acc = some old)
    (hlt : old.submitted_date < r.submitted_date) :
    updateLatest acc r = dictSet r.company_key r acc := by
  unfold updateLatest
  rw [hf]
  exact if_pos hlt

/-- Update equation: an at-least-as-recent stored report is kept. -/
lemma updateLatest_eq_keep {acc : List (String × CompanyDocument)}
    {r old : CompanyDocument} (hf : dictFind r.company_key acc = some old)
    (hlt : ¬ old.submitted_date < r.submitted_date) :
    updateLatest acc r = acc := by
  unfold updateLatest
  rw [hf]
  exact if_neg hlt

/-- The update keeps key distinctness. -/
lemma updateLatest_nodup {acc : List (String × CompanyDocument)}
    {r : CompanyDocument} (h : (acc.map Prod.fst).Nodup) :
    ((updateLatest acc r).map Prod.fst).Nodup := by
  cases hf : dictFind r.company_key acc with
  | none =>
    rw [updateLatest_eq_new hf]
    exact dictSet_nodup h
  | some old =>
    by_cases hlt : old.submitted_date < r.submitted_date
    · rw [updateLatest_eq_replace hf hlt]
      exact dictSet_nodup h
    · rw [updateLatest_eq_keep hf hlt]
      exact h

/-- Lookup after the update at the report's own key: an entry exists and is
at least as recent as the report. -/
lemma updateLatest_self {acc : List (String × CompanyDocument)} {r : CompanyDocument} :
    ∃ doc, dictFind r.company_key (updateLatest acc r) = some doc ∧
      r.submitted_date ≤ doc.submitted_date := by
  cases hf : dictFind r.company_key acc with
  | none =>
    rw [updateLatest_eq_new hf]
    exact ⟨r, by simp [dictFind_dictSet], le_refl _⟩
  | some old =>
    by_cases hlt : old.submitted_date < r.submitted_date
    · rw [updateLatest_eq_replace hf hlt]
      exact ⟨r, by simp [dictFind_dictSet], le_refl _⟩
    · rw [updateLatest_eq_keep hf hlt]
      exact ⟨old, hf, le_of_not_lt hlt⟩

/-- Lookup after the update at any key: existing entries survive with a date
at least as recent. -/
lemma updateLatest_mono {k : String} {doc : CompanyDocument}
    {acc : List (String × CompanyDocument)} {r : CompanyDocument}
    (h : dictFind k acc = some doc) :
    ∃ doc', dictFind k (updateLatest acc r) = some doc' ∧
      doc.submitted_date ≤ doc'.submitted_date := by
  cases hf : dictFind r.company_key acc with
  | none =>
    rw [updateLatest_eq_new hf]
    by_cases hk : r.company_key = k
    · subst hk
      rw [hf] at h
      exact absurd h (by simp)
    · exact ⟨doc, by rw [dictFind_dictSet, if_neg hk]; exact h, le_refl _⟩
  | some old =>
    by_cases hlt : old.submitted_date < r.submitted_date
    · rw [updateLatest_eq_replace hf hlt]
      by_cases hk : r.company_key = k
      · subst hk
        rw [hf] at h
        obtain rfl : old = doc := by simpa using h
        exact ⟨r, by simp [dictFind_dictSet], le_of_lt hlt⟩
      · exact ⟨doc, by rw [dictFind_dictSet, if_neg hk]; exact h, le_refl _⟩
    · rw [updateLatest_eq_keep hf hlt]
      exact ⟨doc, h, le_refl _⟩

/-- Lookup after the update comes from the old dict or is the report. -/
lemma updateLatest_origin {k : String} {doc : CompanyDocument}
    {acc : List (String × CompanyDocument)} {r : CompanyDocument}
    (h : dictFind k (updateLatest acc r) = some doc) :
    dictFind k acc = some doc ∨ (doc = r ∧ k = r.company_key) := by
  cases hf : dictFind r.company_key acc with
  | none =>
    rw [updateLatest_eq_new hf, dictFind_dictSet] at h
    by_cases hk : r.company_key = k
    · rw [if_pos hk] at h
      exact Or.inr ⟨(Option.some.inj h).symm, hk.symm⟩
    · rw [if_neg hk] at h
      exact Or.inl h
  | some old =>
    by_cases hlt : old.submitted_date < r.submitted_date
    · rw [updateLatest_eq_replace hf hlt, dictFind_dictSet] at h
      by_cases hk : r.company_key = k
      · rw [if_pos hk] at h
        exact Or.inr ⟨(Option.some.inj h).symm, hk.symm⟩
      · rw [if_neg hk] at h
        exact Or.inl h
    · rw [updateLatest_eq_keep hf hlt] at h
      exact Or.inl h

/-- Folding the updates keeps key distinctness. -/
lemma foldUpdate_nodup (rs : List CompanyDocument)
    (acc : List (String × CompanyDocument)) (h : (acc.map Prod.fst).Nodup) :
    ((rs.foldl updateLatest acc).map Prod.fst).Nodup := by
  induction rs generalizing acc with
  | nil => exact h
  | cons r rs ih =>
    simp only [List.foldl_cons]
    exact ih _ (updateLatest_nodup h)

/-- Lookup after folding the updates: entries come from the old dict or the
report batch. -/
lemma foldUpdate_origin {k : String} {doc : CompanyDocument} :
    ∀ {rs : List CompanyDocument} {acc : List (String × CompanyDocument)},
    dictFind k (rs.foldl updateLatest acc) = some doc →
    dictFind k acc = some doc ∨ (doc ∈ rs ∧ doc.company_key = k) := by
  intro rs
  induction rs with
  | nil => exact fun h => Or.inl h
  | cons r rs ih =>
    intro acc h
    simp only [List.foldl_cons] at h
    rcases ih h with h' | ⟨hm, hk⟩
    · rcases updateLatest_origin h' with h'' | ⟨rfl, hk⟩
      · exact Or.inl h''
      · exact Or.inr ⟨List.mem_cons_self _ _, hk.symm⟩
    · exact Or.inr ⟨List.mem_cons_of_mem _ hm, hk⟩

/-- Existing entries survive the fold, never getting older. -/
lemma foldUpdate_mono {k : String} :
    ∀ {rs : List CompanyDocument} {acc : List (String × CompanyDocument)}
      {doc : CompanyDocument},
    dictFind k acc = some doc →
    ∃ doc', dictFind k (rs.foldl updateLatest acc) = some doc' ∧
      doc.submitted_date ≤ doc'.submitted_date := by
  intro rs
  induction rs with
  | nil => exact fun h => ⟨_, h, le_refl _⟩
  | cons r rs ih =>
    intro acc doc h
    simp only [List.foldl_cons]
    obtain ⟨doc₁, h₁, hle₁⟩ := updateLatest_mono (r := r) h
    obtain ⟨doc₂, h₂, hle₂⟩ := ih h₁
    exact ⟨doc₂, h₂, le_trans hle₁ hle₂⟩

/-- After folding a batch, every report's company has an entry at least as
recent as that report. -/
lemma foldUpdate_covers {r : CompanyDocument} :
    ∀ {rs : List CompanyDocument} {acc : List (String × CompanyDocument)},
    r ∈ rs →
    ∃ doc, dictFind r.company_key (rs.foldl updateLatest acc) = some doc ∧
      r.submitted_date ≤ doc.submitted_date := by
  intro rs
  induction rs with
  | nil => intro acc h; simp at h
  | cons a rs ih =>
    intro acc hr
    simp only [List.foldl_cons]
    rcases List.mem_cons.mp hr with rfl | hr
    · obtain ⟨doc₁, h₁, hle₁⟩ := @updateLatest_self acc r
      obtain ⟨doc₂, h₂, hle₂⟩ := foldUpdate_mono h₁
      exact ⟨doc₂, h₂, le_trans hle₁ hle₂⟩
    · exact ih hr

/-- Every report the date scan emits corresponds to a matching index
entry of that date. -/
lemma scanDate_sound {targets : List (String × List String)} {docs : List DocEntry}
    {d : ℕ} {r : CompanyDocument} (h : r ∈ scanDateForReports targets docs d) :
    ∃ e ∈ docs, entryMatches targets e r.company_key ∧
      r = mkReport e r.company_key d ∧ r.submitted_date = d := by
  obtain ⟨e, he, hfe⟩ := List.mem_filterMap.mp h
  by_cases ht : e.docTypeCode = "120"
  · rw [if_pos ht] at hfe
    obtain ⟨k, hk, hr⟩ := Option.map_eq_some'.mp hfe
    have hck : r.company_key = k := by rw [← hr]; rfl
    refine ⟨e, he, ⟨ht, by rw [hck]; exact hk⟩, ?_, ?_⟩
    · rw [hck, ← hr]
    · rw [← hr]; rfl
  · rw [if_neg ht] at hfe
    exact absurd hfe (by simp)

/-- Every matching index entry of a date yields a report in that date's
scan. -/
lemma scanDate_complete {targets : List (String × List String)} {docs : List DocEntry}
    {d : ℕ} {e : DocEntry} {k : String} (he : e ∈ docs)
    (hm : entryMatches targets e k) :
    mkReport e k d ∈ scanDateForReports targets docs d :=
  List.mem_filterMap.mpr ⟨e, he, by rw [if_pos hm.1, hm.2]; rfl⟩

/-- Invariant of the date-scan loop after the dates in `processed` have been
scanned: keys are distinct; each stored report is a matching entry of a
processed date; and every matching entry of a processed date is dominated by
the stored report of its company. -/
def locatorInv (targets : List (String × List String)) (docList : ℕ → List DocEntry)
    (processed : List ℕ) (acc : List (String × CompanyDocument)) : Prop :=
  (acc.map Prod.fst).Nodup ∧
  (∀ k doc, dictFind k acc = some doc →
    doc.company_key = k ∧
    ∃ d ∈ processed, doc.submitted_date = d ∧
      ∃ e ∈ docList d, entryMatches targets e k ∧ doc = mkReport e k d) ∧
  (∀ d₀ ∈ processed, ∀ e ∈ docList d₀, ∀ k, entryMatches targets e k →
    ∃ doc, dictFind k acc = some doc ∧ d₀ ≤ doc.submitted_date)

/-- Scanning one more date preserves the loop invariant. -/
lemma locatorInv_step {targets : List (String × List String)}
    {docList : ℕ → List DocEntry} {processed : List ℕ}
    {acc : List (String × CompanyDocument)} (d : ℕ)
    (hinv : locatorInv targets docList processed acc) :
    locatorInv targets docList (processed ++ [d])
      ((scanDateForReports targets (docList d) d).foldl updateLatest acc) := by
  obtain ⟨hnd, hsound, hcover⟩ := hinv
  refine ⟨foldUpdate_nodup _ _ hnd, ?_, ?_⟩
  · intro k doc hfind
    rcases foldUpdate_origin hfind with hold | ⟨hmem, hkey⟩
    · obtain ⟨hck, d₀, hd₀, hdate, e, he, hm, hdoc⟩ := hsound k doc hold
      exact ⟨hck, d₀, List.mem_append_left _ hd₀, hdate, e, he, hm, hdoc⟩
    · obtain ⟨e, he, hm, hdoc, hdate⟩ := scanDate_sound hmem
      rw [hkey] at hm hdoc
      exact ⟨hkey, d, List.mem_append_right _ (List.mem_singleton_self d), hdate,
        e, he, hm, hdoc⟩
  · intro d₀ hd₀ e he k hm
    rcases List.mem_append.mp hd₀ with hd₀ | hd₀
    · obtain ⟨doc₀, hf₀, hle₀⟩ := hcover d₀ hd₀ e he k hm
      obtain ⟨doc₁, hf₁, hle₁⟩ := foldUpdate_mono hf₀
      exact ⟨doc₁, hf₁, le_trans hle₀ hle₁⟩
    · obtain rfl : d₀ = d := List.mem_singleton.mp hd₀
      have hr : mkReport e k d₀ ∈ scanDateForReports targets (docList d₀) d₀ :=
        scanDate_complete he hm
      obtain ⟨doc₁, hf₁, hle₁⟩ := @foldUpdate_covers _ _ acc hr
      exact ⟨doc₁, hf₁, hle₁⟩

/-- Soundness of the date-scan loop, including the early exit: every stored
report is a matching entry of a scanned date and dominates every matching
entry of any date in the range (scanned or skipped by the early exit, the
latter being strictly older). -/
lemma findLatest_sound {targets : List (String × List String)}
    {docList : ℕ → List DocEntry} :
    ∀ (dates processed : List ℕ) (acc : List (String × CompanyDocument)),
    List.Pairwise (· > ·) (processed ++ dates) →
    locatorInv targets docList processed acc →
    (((findLatestReports targets docList dates acc).map Prod.fst).Nodup) ∧
    ∀ k doc, dictFind k (findLatestReports targets docList dates acc) = some doc →
      doc.company_key = k ∧
      (∃ d ∈ processed ++ dates, doc.submitted_date = d ∧
        ∃ e ∈ docList d, entryMatches targets e k ∧ doc = mkReport e k d) ∧
      ∀ d' ∈ processed ++ dates, ∀ e' ∈ docList d', entryMatches targets e' k →
        d' ≤ doc.submitted_date := by
  intro dates
  induction dates with
  | nil =>
    intro processed acc hpw hinv
    obtain ⟨hnd, hsound, hcover⟩ := hinv
    refine ⟨hnd, ?_⟩
    intro k doc hfind
    have hfind' : dictFind k acc = some doc := hfind
    obtain ⟨hck, d₀, hd₀, hrest⟩ := hsound k doc hfind'
    refine ⟨hck, ⟨d₀, by simpa using hd₀, hrest⟩, ?_⟩
    intro d' hd' e' he' hm
    obtain ⟨doc₀, hf₀, hle₀⟩ := hcover d' (by simpa using hd') e' he' k hm
    rw [hfind'] at hf₀
    obtain rfl : doc₀ = doc := (Option.some.inj hf₀).symm
    exact hle₀
  | cons d ds ih =>
    intro processed acc hpw hinv
    have hinv' := locatorInv_step d hinv
    have hassoc : processed ++ d :: ds = (processed ++ [d]) ++ ds := by
      simp
    have hpw' : List.Pairwise (· > ·) ((processed ++ [d]) ++ ds) := by
      rw [← hassoc]; exact hpw
    simp only [findLatestReports]
    by_cases hbreak :
        ((scanDateForReports targets (docList d) d).foldl updateLatest acc).length =
          targets.length
    · rw [if_pos hbreak]
      obtain ⟨hnd', hsound', hcover'⟩ := hinv'
      refine ⟨hnd', ?_⟩
      intro k doc hfind
      obtain ⟨hck, d₀, hd₀, hrest⟩ := hsound' k doc hfind
      have hd₀' : d₀ ∈ processed ++ d :: ds := by
        rw [hassoc]; exact List.mem_append_left _ hd₀
      refine ⟨hck, ⟨d₀, hd₀', hrest⟩, ?_⟩
      intro d' hd' e' he' hm
      rw [hassoc] at hd'
      rcases List.mem_append.mp hd' with hd' | hd'
      · obtain ⟨doc₀, hf₀, hle₀⟩ := hcover' d' hd' e' he' k hm
        rw [hfind] at hf₀
        obtain rfl : doc₀ = doc := (Option.some.inj hf₀).symm
        exact hle₀
      · -- a skipped (older) date: strictly below every scanned date
        have hgt : d₀ > d' := (List.pairwise_append.mp hpw').2.2 d₀ hd₀ d' hd'
        rw [hrest.1]
        exact le_of_lt hgt
    · rw [if_neg hbreak]
      have := ih (processed ++ [d])
        ((scanDateForReports targets (docList d) d).foldl updateLatest acc)
        hpw' hinv'
      obtain ⟨hnd', hres⟩ := this
      refine ⟨hnd', ?_⟩
      intro k doc hfind
      obtain ⟨hck, ⟨d₀, hd₀, hrest⟩, hmax⟩ := hres k doc hfind
      rw [← hassoc] at hd₀
      refine ⟨hck, ⟨d₀, hd₀, hrest⟩, ?_⟩
      intro d' hd' e' he' hm
      rw [hassoc] at hd'
      exact hmax d' hd' e' he' hm

/-- C8: over a strictly descending date range, the locator records at most
one document per tracked company (distinct keys); each recorded document is
a type-120 index entry whose filer name matched one of the company's
keywords, submitted on one of the range's dates; it is at least as recent
as every matching entry on any date of the range; and keyword matching is
exact substring containment: filer name `株式会社メルカリ` matches keyword
`株式会社メルカリ` and does not match `メルカリ株式会社`. -/
theorem claim_C8 :
    (∀ (targets : List (String × List String)) (docList : ℕ → List DocEntry)
      (dates : List ℕ), List.Pairwise (· > ·) dates →
      (((findLatestReports targets docList dates []).map Prod.fst).Nodup) ∧
      ∀ k doc, dictFind k (findLatestReports targets docList dates []) = some doc →
        doc.company_key = k ∧
        (∃ d ∈ dates, doc.submitted_date = d ∧
          ∃ e ∈ docList d, entryMatches targets e k ∧ doc = mkReport e k d) ∧
        ∀ d' ∈ dates, ∀ e' ∈ docList d', entryMatches targets e' k →
          d' ≤ doc.submitted_date) ∧
    strContains "株式会社メルカリ" "株式会社メルカリ" = true ∧
    strContains "メルカリ株式会社" "株式会社メルカリ" = false ∧
    matchCompany [("mercari", ["株式会社メルカリ"])] "株式会社メルカリ" = some "mercari" ∧
    matchCompany [("mercari", ["メルカリ株式会社"])] "株式会社メルカリ" = none := by
  refine ⟨?_, by decide, by decide, by decide, by decide⟩
  intro targets docList dates hpw
  have h := @findLatest_sound targets docList dates [] []
    (by simpa using hpw)
    (by
      refine ⟨by simp, ?_, ?_⟩
      · intro k doc hfind
        exact absurd hfind (by simp [dictFind])
      · intro d₀ hd₀
        simp at hd₀)
  simpa using h

/-- Tracked companies of the C8 witness. -/
def targets0 : List (String × List String) :=
  [("mercari", ["株式会社メルカリ"])]

/-- Filing registry of the C8 witness: a matching filing on each of two
days. -/
def docList0 (d : ℕ) : List DocEntry :=
  if d = 10 then [⟨"120", "株式会社メルカリ", "doc1", none⟩]
  else if d = 9 then [⟨"120", "株式会社メルカリ", "doc0", none⟩]
  else []

/-- The report the locator keeps in the C8 witness: the day-10 filing. -/
def doc10 : CompanyDocument :=
  mkReport ⟨"120", "株式会社メルカリ", "doc1", none⟩ "mercari" 10

/-- Witness for C8: scanning days 10 then 9, the locator stores exactly the
day-10 filing for mercari, which dominates the matching day-9 filing. -/
theorem claim_C8_witness :
    doc10.company_key = "mercari" ∧
    (∃ d ∈ [10, 9], doc10.submitted_date = d ∧
      ∃ e ∈ docList0 d, entryMatches targets0 e "mercari" ∧ doc10 = mkReport e "mercari" d) ∧
    ∀ d' ∈ [10, 9], ∀ e' ∈ docList0 d', entryMatches targets0 e' "mercari" →
      d' ≤ doc10.submitted_date :=
  ((claim_C8.1 targets0 docList0 [10, 9] (by decide)).2 "mercari" doc10 (by decide))

/-! ## Employee-info parsing, basic-info parsing and report assembly
(`parse_employee_info`, edinet.py:229-315; `parse_basic_info`,
edinet.py:317-394; `update_company_data`, edinet.py:1359-1433).

The per-file regex extractors are abstracted as oracles
(`extractIxbrl content concept` for `_extract_value_from_ixbrl_concept`,
with `[]` for a miss; `extractCtx content keyword` for
`_extract_value_from_context`; the four basic-info extractors as
`String → Option String`); the loops, tier ordering, the skip-once-found
guards and every provenance write are translated exactly. Provenance
entries are abstracted to the source file and method the claim names;
the wall-clock `fetched_at` timestamp and the financial block of the
assembled record are omitted as irrelevant to provenance. -/

/-- The four HR fields of `parse_employee_info`, in the dict's iteration
order. -/
inductive HRField where
  | tenure | age | salary | count
  deriving DecidableEq, Repr

/-- The dict keys of the four HR fields (edinet.py:231-236). -/
def hrFieldName : HRField → String
  | .tenure => "avgTenureYears"
  | .age => "avgAgeYears"
  | .salary => "avgAnnualSalaryJPY"
  | .count => "employeeCount"

/-- Iteration order of `for field in keywords.keys()` (edinet.py:275). -/
def hrFieldsList : List HRField :=
  [.tenure, .age, .salary, .count]

/-- The iXBRL concept names per field (edinet.py:248-269). -/
def hrConcepts : HRField → List String
  | .tenure =>
    ["jpcrp_cor:AverageLengthOfServiceYearsInformationAboutReportingCompanyInformationAboutEmployees",
     "jpcrp_cor:AverageLengthOfServiceYearsInformationOfReportingCompanyInformation",
     "jpcrp_cor:AverageLengthOfServiceYears"]
  | .age =>
    ["jpcrp_cor:AverageAgeYearsInformationAboutReportingCompanyInformationAboutEmployees",
     "jpcrp_cor:AverageAgeYearsInformationOfReportingCompanyInformation",
     "jpcrp_cor:AverageAgeYears",
     "jpcrp_cor:AverageAge"]
  | .salary =>
    ["jpcrp_cor:AverageAnnualSalaryInformationAboutReportingCompanyInformationAboutEmployees",
     "jpcrp_cor:AverageAnnualSalaryInformationOfReportingCompanyInformation",
     "jpcrp_cor:AverageAnnualSalary"]
  | .count =>
    ["jpcrp_cor:NumberOfEmployees",
     "jpcrp_cor:AverageNumberOfEmployees"]

/-- The text keywords per field (edinet.py:240-245). -/
def hrKeywords : HRField → List String
  | .tenure => ["平均勤続年数", "AverageLengthOfServiceYears"]
  | .age => ["平均年齢", "AverageAgeYears"]
  | .salary => ["平均年間給与", "AverageAnnualSalary"]
  | .count => ["従業員数", "NumberOfEmployees"]

/-- A provenance record, abstracted to source file and method. -/
structure ProvEntry where
  file : String
  method : String
  deriving DecidableEq, Repr

/-- The `employee_info` dict: field values plus the provenance sub-dict
keyed by field name. -/
structure EmpInfo where
  value : HRField → Option ℚ
  prov : String → Option ProvEntry

/-- Provenance-dict assignment. -/
def setProv (prov : String → Option ProvEntry) (s : String) (pe : ProvEntry) :
    String → Option ProvEntry :=
  fun t => if t = s then some pe else prov t

/-- Tier 1 of `parse_employee_info` (edinet.py:279-298): first concept with
results wins; the best candidate is normalized and recorded with method
`ixbrl_concept`. -/
def hrTier1 (extractIxbrl : String → String → List ExtractedValue)
    (filename content : String) (f : HRField) : List String → Option (ℚ × ProvEntry)
  | [] => none
  | c :: rest =>
    match selectBestValueByContext (extractIxbrl content c) with
    | some best =>
      some (applyIxbrlAttributes best (hrFieldName f), ⟨filename, "ixbrl_concept"⟩)
    | none => hrTier1 extractIxbrl filename content f rest

/-- Tier 2 of `parse_employee_info` (edinet.py:300-313): first present
keyword whose context extraction yields a value, recorded with method
`text_search_backup`. -/
def hrTier2 (extractCtx : String → String → Option ℚ)
    (filename content : String) : List String → Option (ℚ × ProvEntry)
  | [] => none
  | kw :: rest =>
    if strContains kw content then
      match extractCtx content kw with
      | some v => some (v, ⟨filename, "text_search_backup"⟩)
      | none => hrTier2 extractCtx filename content rest
    else hrTier2 extractCtx filename content rest

/-- Per-file, per-field step of `parse_employee_info`: skip if already
found, else tier 1 then tier 2, writing value and provenance together. -/
def hrStep (extractIxbrl : String → String → List ExtractedValue)
    (extractCtx : String → String → Option ℚ) (filename content : String)
    (info : EmpInfo) (f : HRField) : EmpInfo :=
  if (info.value f).isSome then info
  else
    match hrTier1 extractIxbrl filename content f (hrConcepts f) with
    | some (v, pe) =>
      ⟨fun g => if g = f then some v else info.value g,
       setProv info.prov (hrFieldName f) pe⟩
    | none =>
      match hrTier2 extractCtx filename content (hrKeywords f) with
      | some (v, pe) =>
        ⟨fun g => if g = f then some v else info.value g,
         setProv info.prov (hrFieldName f) pe⟩
      | none => info

/-- `parse_employee_info` (edinet.py:229-315). -/
def parseEmployeeInfo (extractIxbrl : String → String → List ExtractedValue)
    (extractCtx : String → String → Option ℚ)
    (files : List (String × String)) : EmpInfo :=
  files.foldl
    (fun info fc => hrFieldsList.foldl (hrStep extractIxbrl extractCtx fc.1 fc.2) info)
    ⟨fun _ => none, fun _ => none⟩

/-- The `basic_info` dict of `parse_basic_info` (empty-string/None initial
values modelled as `none`, set only to the extractors' non-empty hits). -/
structure BasicInfo where
  name : Option String
  name_en : Option String
  headquarters : Option String
  founded_year : Option ℤ
  sec_code : Option String
  prov : String → Option ProvEntry

/-- What `parse_basic_info_from_header` hands back (edinet.py:338). -/
structure HeaderInfo where
  name_en : Option String
  headquarters : Option String
  sec_code : Option String

/-- Header phase of `parse_basic_info` (edinet.py:334-358): header-derived
facts with method `header_ixbrl`, and the fiscal-period founding year with
method `header_business_year`. -/
def basicHeaderPhase (header : Option (String × HeaderInfo))
    (headerFounded : Option ℤ) : BasicInfo :=
  match header with
  | none => ⟨none, none, none, none, none, fun _ => none⟩
  | some (fname, hi) =>
    let b0 : BasicInfo := ⟨none, none, none, none, none, fun _ => none⟩
    let b1 := match hi.name_en with
      | some v =>
        { b0 with
          name_en := some v
          prov := setProv b0.prov "name_en" ⟨fname, "header_ixbrl"⟩ }
      | none => b0
    let b2 := match hi.headquarters with
      | some v =>
        { b1 with
          headquarters := some v
          prov := setProv b1.prov "headquarters" ⟨fname, "header_ixbrl"⟩ }
      | none => b1
    let b3 := match headerFounded with
      | some y =>
        { b2 with
          founded_year := some y
          prov := setProv b2.prov "founded_year" ⟨fname, "header_business_year"⟩ }
      | none => b2
    match hi.sec_code with
      | some v =>
        { b3 with
          sec_code := some v
          prov := setProv b3.prov "sec_code" ⟨fname, "header_ixbrl"⟩ }
      | none => b3

/-- Honbun-phase sub-step 1 (edinet.py:361-366): company name. -/
def basicSetName (extractName : String → Option String)
    (b : BasicInfo) (fc : String × String) : BasicInfo :=
  if b.name = none then
    match extractName fc.2 with
    | some v =>
      { b with
        name := some v
        prov := setProv b.prov "name" ⟨fc.1, "regex"⟩ }
    | none => b
  else b

/-- Honbun-phase sub-step 2 (edinet.py:368-373): English name. -/
def basicSetNameEn (extractNameEn : String → Option String)
    (b : BasicInfo) (fc : String × String) : BasicInfo :=
  if b.name_en = none then
    match extractNameEn fc.2 with
    | some v =>
      { b with
        name_en := some v
        prov := setProv b.prov "name_en" ⟨fc.1, "regex"⟩ }
    | none => b
  else b

/-- Honbun-phase sub-step 3 (edinet.py:375-380): headquarters. -/
def basicSetHq (extractHq : String → Option String)
    (b : BasicInfo) (fc : String × String) : BasicInfo :=
  if b.headquarters = none then
    match extractHq fc.2 with
    | some v =>
      { b with
        headquarters := some v
        prov := setProv b.prov "headquarters" ⟨fc.1, "regex"⟩ }
    | none => b
  else b

/-- Honbun-phase sub-step 4 (edinet.py:385-390): security code. -/
def basicSetSec (extractSec : String → Option String)
    (b : BasicInfo) (fc : String × String) : BasicInfo :=
  if b.sec_code = none then
    match extractSec fc.2 with
    | some v =>
      { b with
        sec_code := some v
        prov := setProv b.prov "sec_code" ⟨fc.1, "regex"⟩ }
    | none => b
  else b

/-- Honbun phase of `parse_basic_info` (edinet.py:360-391): fill each still
missing field from the per-file regex extractors, method `regex`
(founding year is handled by the header phase only; edinet.py:382-383). -/
def basicHonbunStep (extractName extractNameEn extractHq extractSec : String → Option String)
    (b : BasicInfo) (fc : String × String) : BasicInfo :=
  basicSetSec extractSec
    (basicSetHq extractHq
      (basicSetNameEn extractNameEn
        (basicSetName extractName b fc) fc) fc) fc

/-- `parse_basic_info` (edinet.py:317-394). -/
def parseBasicInfo (header : Option (String × HeaderInfo)) (headerFounded : Option ℤ)
    (extractName extractNameEn extractHq extractSec : String → Option String)
    (files : List (String × String)) : BasicInfo :=
  files.foldl (basicHonbunStep extractName extractNameEn extractHq extractSec)
    (basicHeaderPhase header headerFounded)

/-- The assembled `EdinetBasic` block (edinet.py:1381-1399). -/
structure EdinetBasicM where
  name : String
  name_en : String
  name_ko : String
  headquarters : String
  headquarters_ko : String
  headquarters_en : String
  founded_year : Option ℤ
  sec_code : Option String
  market_cap : Option ℕ
  employee_count : Option ℚ

/-- The assembled HR block (edinet.py:1402-1404). -/
structure EdinetHRM where
  avgTenureYears : Option ℚ
  avgAgeYears : Option ℚ
  avgAnnualSalaryJPY : Option ℚ

/-- The assembled provenance dict (edinet.py:1411-1418): fixed top-level
keys plus the employee-info provenance sub-dict — the only per-field
provenance in the record (`fetched_at` omitted as wall-clock). -/
structure ProvenanceM where
  source : String
  document_id : String
  submitted_date : ℕ
  company_key : String
  employee_info_provenance : String → Option ProvEntry

/-- The assembled `EdinetData` record (financial block omitted). -/
structure EdinetDataM where
  basic : EdinetBasicM
  hr : EdinetHRM
  provenance : ProvenanceM

/-- `update_company_data`'s assembly (edinet.py:1378-1418): the report
record built from the parsed employee info, the parsed basic info and the
located document; `translate` abstracts the translation collaborator and
`marketCap` the market-capitalization lookup. Note the provenance dict
carries `employee_info_provenance` only — `basic_info["provenance"]` is
not copied anywhere. -/
def updateCompanyAssembly (companyKey : String) (document : CompanyDocument)
    (emp : EmpInfo) (basic : BasicInfo) (translate : String → String)
    (marketCap : Option ℕ) : EdinetDataM :=
  let name := match basic.name with
    | some n => n
    | none => document.company_name
  let headquarters := (basic.headquarters).getD ""
  let secCode := match document.sec_code with
    | some s => if s ≠ "" then some s else basic.sec_code
    | none => basic.sec_code
  { basic :=
      { name := name
        name_en := (basic.name_en).getD ""
        name_ko := if name ≠ "" then translate name else ""
        headquarters := headquarters
        headquarters_ko := if headquarters ≠ "" then translate headquarters else ""
        headquarters_en := ""
        founded_year := basic.founded_year
        sec_code := secCode
        market_cap := if secCode.isSome then marketCap else none
        employee_count := emp.value .count }
    hr :=
      { avgTenureYears := emp.value .tenure
        avgAgeYears := emp.value .age
        avgAnnualSalaryJPY := emp.value .salary }
    provenance :=
      { source := "EDINET API v2"
        document_id := document.document_id
        submitted_date := document.submitted_date
        company_key := companyKey
        employee_info_provenance := emp.prov } }

/-- Per-field provenance lookup on the assembled report: the only per-field
provenance map the record carries is the employee-info one. -/
def reportFieldProv (rep : EdinetDataM) (fieldName : String) : Option ProvEntry :=
  rep.provenance.employee_info_provenance fieldName

/-- A property preserved by each fold step holds of the fold. -/
lemma foldl_preserve {α β : Type} (P : α → Prop) (f : α → β → α)
    (hstep : ∀ a b, P a → P (f a b)) : ∀ (l : List β) (a : α), P a → P (l.foldl f a) := by
  intro l
  induction l with
  | nil => exact fun a h => h
  | cons b l ih =>
    intro a h
    simp only [List.foldl_cons]
    exact ih _ (hstep a b h)

/-- Field names of the four HR fields are distinct. -/
lemma hrFieldName_inj : ∀ f g : HRField, hrFieldName f = hrFieldName g → f = g := by
  intro f g
  cases f <;> cases g <;> simp [hrFieldName]

/-- Every set HR value has a provenance entry under its field name. -/
def empInv (info : EmpInfo) : Prop :=
  ∀ f, (info.value f).isSome → (info.prov (hrFieldName f)).isSome

/-- The per-field step of `parse_employee_info` preserves the value-has-
provenance invariant. -/
lemma hrStep_inv {extractIxbrl : String → String → List ExtractedValue}
    {extractCtx : String → String → Option ℚ} {filename content : String}
    {info : EmpInfo} {f : HRField} (h : empInv info) :
    empInv (hrStep extractIxbrl extractCtx filename content info f) := by
  intro g
  unfold hrStep
  by_cases hs : (info.value f).isSome
  · rw [if_pos hs]
    exact h g
  · rw [if_neg hs]
    cases ht1 : hrTier1 extractIxbrl filename content f (hrConcepts f) with
    | some vp =>
      obtain ⟨v, pe⟩ := vp
      intro hg
      simp only at hg ⊢
      simp only [setProv]
      by_cases hname : hrFieldName g = hrFieldName f
      · simp [hname]
      · rw [if_neg hname]
        by_cases hgf : g = f
        · exact absurd (by rw [hgf]) hname
        · rw [if_neg hgf] at hg
          exact h g hg
    | none =>
      cases ht2 : hrTier2 extractCtx filename content (hrKeywords f) with
      | some vp =>
        obtain ⟨v, pe⟩ := vp
        intro hg
        simp only at hg ⊢
        simp only [setProv]
        by_cases hname : hrFieldName g = hrFieldName f
        · simp [hname]
        · rw [if_neg hname]
          by_cases hgf : g = f
          · exact absurd (by rw [hgf]) hname
          · rw [if_neg hgf] at hg
            exact h g hg
      | none => exact h g

/-- Provenance keys written by `parse_employee_info` are HR field names. -/
def empKeysInv (info : EmpInfo) : Prop :=
  ∀ s, (info.prov s).isSome → ∃ f, s = hrFieldName f

/-- The per-field step only writes HR-field provenance keys. -/
lemma hrStep_keys {extractIxbrl : String → String → List ExtractedValue}
    {extractCtx : String → String → Option ℚ} {filename content : String}
    {info : EmpInfo} {f : HRField} (h : empKeysInv info) :
    empKeysInv (hrStep extractIxbrl extractCtx filename content info f) := by
  intro s
  unfold hrStep
  by_cases hs : (info.value f).isSome
  · rw [if_pos hs]
    exact h s
  · rw [if_neg hs]
    cases ht1 : hrTier1 extractIxbrl filename content f (hrConcepts f) with
    | some vp =>
      obtain ⟨v, pe⟩ := vp
      intro hg
      simp only [setProv] at hg
      by_cases hname : s = hrFieldName f
      · exact ⟨f, hname⟩
      · rw [if_neg hname] at hg
        exact h s hg
    | none =>
      cases ht2 : hrTier2 extractCtx filename content (hrKeywords f) with
      | some vp =>
        obtain ⟨v, pe⟩ := vp
        intro hg
        simp only [setProv] at hg
        by_cases hname : s = hrFieldName f
        · exact ⟨f, hname⟩
        · rw [if_neg hname] at hg
          exact h s hg
      | none => exact h s

/-- `parse_employee_info` maintains the value-has-provenance invariant. -/
lemma parseEmployeeInfo_inv (extractIxbrl : String → String → List ExtractedValue)
    (extractCtx : String → String → Option ℚ) (files : List (String × String)) :
    empInv (parseEmployeeInfo extractIxbrl extractCtx files) := by
  refine foldl_preserve empInv _ ?_ files _ ?_
  · intro info fc hinfo
    exact foldl_preserve empInv _ (fun i f hi => hrStep_inv hi) hrFieldsList info hinfo
  · intro f h
    simp at h

/-- `parse_employee_info` writes only HR-field provenance keys. -/
lemma parseEmployeeInfo_keys (extractIxbrl : String → String → List ExtractedValue)
    (extractCtx : String → String → Option ℚ) (files : List (String × String)) :
    empKeysInv (parseEmployeeInfo extractIxbrl extractCtx files) := by
  refine foldl_preserve empKeysInv _ ?_ files _ ?_
  · intro info fc hinfo
    exact foldl_preserve empKeysInv _ (fun i f hi => hrStep_keys hi) hrFieldsList info hinfo
  · intro s h
    simp at h

/-- In particular, `parse_employee_info` never records provenance under
`founded_year` (or any non-HR key). -/
lemma parseEmployeeInfo_founded_none (extractIxbrl : String → String → List ExtractedValue)
    (extractCtx : String → String → Option ℚ) (files : List (String × String)) :
    (parseEmployeeInfo extractIxbrl extractCtx files).prov "founded_year" = none := by
  by_cases h : ((parseEmployeeInfo extractIxbrl extractCtx files).prov "founded_year").isSome
  · obtain ⟨f, hf⟩ := parseEmployeeInfo_keys extractIxbrl extractCtx files _ h
    cases f <;> simp [hrFieldName] at hf
  · exact Option.not_isSome_iff_eq_none.mp h

/-- Every set basic-info field has a provenance entry under its dict key. -/
def basicInv (b : BasicInfo) : Prop :=
  (b.name.isSome → (b.prov "name").isSome) ∧
  (b.name_en.isSome → (b.prov "name_en").isSome) ∧
  (b.headquarters.isSome → (b.prov "headquarters").isSome) ∧
  (b.founded_year.isSome → (b.prov "founded_year").isSome) ∧
  (b.sec_code.isSome → (b.prov "sec_code").isSome)

/-- The header phase writes provenance with every field it sets. -/
lemma basicHeaderPhase_inv (header : Option (String × HeaderInfo))
    (headerFounded : Option ℤ) : basicInv (basicHeaderPhase header headerFounded) := by
  cases header with
  | none => simp [basicHeaderPhase, basicInv]
  | some p =>
    obtain ⟨fname, ne, hq, sc⟩ := p
    cases ne <;> cases hq <;> cases headerFounded <;> cases sc <;>
      simp [basicHeaderPhase, basicInv, setProv]

/-- The honbun name sub-step preserves the invariant. -/
lemma basicSetName_inv {extractName : String → Option String} {b : BasicInfo}
    {fc : String × String} (h : basicInv b) :
    basicInv (basicSetName extractName b fc) := by
  unfold basicSetName
  by_cases hn : b.name = none
  · rw [if_pos hn]
    cases hv : extractName fc.2 with
    | some v =>
      obtain ⟨h1, h2, h3, h4, h5⟩ := h
      exact ⟨by simp [setProv], by simpa [setProv] using h2,
        by simpa [setProv] using h3, by simpa [setProv] using h4,
        by simpa [setProv] using h5⟩
    | none => exact h
  · rw [if_neg hn]
    exact h

/-- The honbun English-name sub-step preserves the invariant. -/
lemma basicSetNameEn_inv {extractNameEn : String → Option String} {b : BasicInfo}
    {fc : String × String} (h : basicInv b) :
    basicInv (basicSetNameEn extractNameEn b fc) := by
  unfold basicSetNameEn
  by_cases hn : b.name_en = none
  · rw [if_pos hn]
    cases hv : extractNameEn fc.2 with
    | some v =>
      obtain ⟨h1, h2, h3, h4, h5⟩ := h
      exact ⟨by simpa [setProv] using h1, by simp [setProv],
        by simpa [setProv] using h3, by simpa [setProv] using h4,
        by simpa [setProv] using h5⟩
    | none => exact h
  · rw [if_neg hn]
    exact h

/-- The honbun headquarters sub-step preserves the invariant. -/
lemma basicSetHq_inv {extractHq : String → Option String} {b : BasicInfo}
    {fc : String × String} (h : basicInv b) :
    basicInv (basicSetHq extractHq b fc) := by
  unfold basicSetHq
  by_cases hn : b.headquarters = none
  · rw [if_pos hn]
    cases hv : extractHq fc.2 with
    | some v =>
      obtain ⟨h1, h2, h3, h4, h5⟩ := h
      exact ⟨by simpa [setProv] using h1, by simpa [setProv] using h2,
        by simp [setProv], by simpa [setProv] using h4,
        by simpa [setProv] using h5⟩
    | none => exact h
  · rw [if_neg hn]
    exact h

/-- The honbun security-code sub-step preserves the invariant. -/
lemma basicSetSec_inv {extractSec : String → Option String} {b : BasicInfo}
    {fc : String × String} (h : basicInv b) :
    basicInv (basicSetSec extractSec b fc) := by
  unfold basicSetSec
  by_cases hn : b.sec_code = none
  · rw [if_pos hn]
    cases hv : extractSec fc.2 with
    | some v =>
      obtain ⟨h1, h2, h3, h4, h5⟩ := h
      exact ⟨by simpa [setProv] using h1, by simpa [setProv] using h2,
        by simpa [setProv] using h3, by simpa [setProv] using h4,
        by simp [setProv]⟩
    | none => exact h
  · rw [if_neg hn]
    exact h

/-- `parse_basic_info` maintains the field-has-provenance invariant. -/
lemma parseBasicInfo_inv (header : Option (String × HeaderInfo)) (headerFounded : Option ℤ)
    (extractName extractNameEn extractHq extractSec : String → Option String)
    (files : List (String × String)) :
    basicInv (parseBasicInfo header headerFounded
      extractName extractNameEn extractHq extractSec files) := by
  refine foldl_preserve basicInv _ ?_ files _ (basicHeaderPhase_inv header headerFounded)
  intro b fc hb
  exact basicSetSec_inv (basicSetHq_inv (basicSetNameEn_inv (basicSetName_inv hb)))

/-- Employee info of the C9 refutation: no extractor ever hits, so no HR
value and no provenance entry is recorded. -/
def emp0 : EmpInfo :=
  parseEmployeeInfo (fun _ _ => []) (fun _ _ => none) [("honbun1.htm", "body")]

/-- Basic info of the C9 refutation: the header's fiscal-period arithmetic
yields founding year 1961 (recorded with provenance in `basic_info`), and
no other extractor hits. -/
def basic0 : BasicInfo :=
  parseBasicInfo (some ("header.htm", ⟨none, none, none⟩)) (some 1961)
    (fun _ => none) (fun _ => none) (fun _ => none) (fun _ => none)
    [("honbun1.htm", "body")]

/-- The assembled report of the C9 refutation. -/
def rep0 : EdinetDataM :=
  updateCompanyAssembly "mercari" doc10 emp0 basic0 (fun s => s) none

/-- Counterexample to C9 as stated: the assembled report carries founding
year 1961, extracted with a provenance entry recorded in `basic_info`, yet
the report's provenance map has no entry for `founded_year` — the assembly
copies only the employee-info provenance sub-dict (its top-level keys are
the fixed source/document/company fields), dropping `basic_info`'s. -/
theorem claim_C9_counterexample :
    rep0.basic.founded_year = some 1961 ∧
    basic0.prov "founded_year" = some ⟨"header.htm", "header_business_year"⟩ ∧
    reportFieldProv rep0 "founded_year" = none := by
  refine ⟨by decide, by decide, by decide⟩

/-- C9 as amended: every non-null HR field of the assembled report (tenure,
age, salary and the headcount stored in the basic block) carries a
provenance entry in the report's employee-info provenance map, and the
basic-info parser likewise records provenance for every field it sets
(name, English name, headquarters, founding year, security code); but the
assembled report's per-field provenance map is exactly the employee-info
one — which never holds a `founded_year` key — so basic-info provenance,
though recorded during parsing, does not reach the assembled report. -/
theorem claim_C9 :
    (∀ (extractIxbrl : String → String → List ExtractedValue)
       (extractCtx : String → String → Option ℚ)
       (files : List (String × String)) (f : HRField),
      ((parseEmployeeInfo extractIxbrl extractCtx files).value f).isSome →
      ((parseEmployeeInfo extractIxbrl extractCtx files).prov (hrFieldName f)).isSome) ∧
    (∀ (header : Option (String × HeaderInfo)) (headerFounded : Option ℤ)
       (extractName extractNameEn extractHq extractSec : String → Option String)
       (files : List (String × String)),
      basicInv (parseBasicInfo header headerFounded
        extractName extractNameEn extractHq extractSec files)) ∧
    (∀ (companyKey : String) (document : CompanyDocument) (emp : EmpInfo)
       (basic : BasicInfo) (translate : String → String) (marketCap : Option ℕ)
       (s : String),
      reportFieldProv (updateCompanyAssembly companyKey document emp basic
        translate marketCap) s = emp.prov s) ∧
    (∀ (companyKey : String) (document : CompanyDocument)
       (extractIxbrl : String → String → List ExtractedValue)
       (extractCtx : String → String → Option ℚ)
       (files : List (String × String)) (basic : BasicInfo)
       (translate : String → String) (marketCap : Option ℕ),
      ((updateCompanyAssembly companyKey document
          (parseEmployeeInfo extractIxbrl extractCtx files) basic
          translate marketCap).hr.avgTenureYears.isSome →
        (reportFieldProv (updateCompanyAssembly companyKey document
          (parseEmployeeInfo extractIxbrl extractCtx files) basic
          translate marketCap) "avgTenureYears").isSome) ∧
      ((updateCompanyAssembly companyKey document
          (parseEmployeeInfo extractIxbrl extractCtx files) basic
          translate marketCap).hr.avgAgeYears.isSome →
        (reportFieldProv (updateCompanyAssembly companyKey document
          (parseEmployeeInfo extractIxbrl extractCtx files) basic
          translate marketCap) "avgAgeYears").isSome) ∧
      ((updateCompanyAssembly companyKey document
          (parseEmployeeInfo extractIxbrl extractCtx files) basic
          translate marketCap).hr.avgAnnualSalaryJPY.isSome →
        (reportFieldProv (updateCompanyAssembly companyKey document
          (parseEmployeeInfo extractIxbrl extractCtx files) basic
          translate marketCap) "avgAnnualSalaryJPY").isSome) ∧
      ((updateCompanyAssembly companyKey document
          (parseEmployeeInfo extractIxbrl extractCtx files) basic
          translate marketCap).basic.employee_count.isSome →
        (reportFieldProv (updateCompanyAssembly companyKey document
          (parseEmployeeInfo extractIxbrl extractCtx files) basic
          translate marketCap) "employeeCount").isSome)) ∧
    (∀ (extractIxbrl : String → String → List ExtractedValue)
       (extractCtx : String → String → Option ℚ)
       (files : List (String × String)),
      (parseEmployeeInfo extractIxbrl extractCtx files).prov "founded_year" = none) := by
  refine ⟨?_, parseBasicInfo_inv, fun _ _ _ _ _ _ _ => rfl, ?_, parseEmployeeInfo_founded_none⟩
  · intro eI eC files f
    exact parseEmployeeInfo_inv eI eC files f
  · intro ck document eI eC files basic translate marketCap
    refine ⟨fun h => ?_, fun h => ?_, fun h => ?_, fun h => ?_⟩
    · exact parseEmployeeInfo_inv eI eC files .tenure h
    · exact parseEmployeeInfo_inv eI eC files .age h
    · exact parseEmployeeInfo_inv eI eC files .salary h
    · exact parseEmployeeInfo_inv eI eC files .count h

/-- The iXBRL oracle of the C9 witness: one tenure concept hit. -/
def hrIxbrlOracle0 (content concept : String) : List ExtractedValue :=
  if concept = "jpcrp_cor:AverageLengthOfServiceYears" ∧ content = "x" then
    [⟨"8.5", some "CurrentYearDuration", none, none, none⟩]
  else []

/-- Witness for C9 at concrete inputs: a recorded tenure value carries its
provenance entry; the refutation's basic info satisfies the parse-level
invariant; the assembled per-field provenance is the employee-info one; and
no `founded_year` entry exists in it. -/
theorem claim_C9_witness :
    ((parseEmployeeInfo hrIxbrlOracle0 (fun _ _ => none)
        [("h.htm", "x")]).prov "avgTenureYears").isSome ∧
    basicInv basic0 ∧
    reportFieldProv rep0 "founded_year" = emp0.prov "founded_year" ∧
    emp0.prov "founded_year" = none :=
  ⟨claim_C9.1 hrIxbrlOracle0 (fun _ _ => none) [("h.htm", "x")] .tenure (by decide),
   claim_C9.2.1 (some ("header.htm", ⟨none, none, none⟩)) (some 1961)
     (fun _ => none) (fun _ => none) (fun _ => none) (fun _ => none)
     [("honbun1.htm", "body")],
   claim_C9.2.2.1 "mercari" doc10 emp0 basic0 (fun s => s) none "founded_year",
   claim_C9.2.2.2.2 (fun _ _ => []) (fun _ _ => none) [("honbun1.htm", "body")]⟩

end Edinet
